import Mathlib

/-!
Verification of the secure-scribe pipeline core.

This file shallowly embeds the pipeline core of the repository:
PII detection/anonymization (src/services/anonymization.ts), WAV
decoding and resampling (src/services/whisper/config.ts), the byte-level
BPE tokenizer (src/services/gliner/tokenizer.ts), the remote
transcription service (src/services/transcription.ts) and the processing
pipeline (src/unnamed/part_007, first document, runProcessingPipeline).

Conventions of the embedding:
- JavaScript strings are Lean `String`s (lists of Unicode scalar values);
  the worker functions operate on `List Char`.
- JavaScript numbers are embedded as `Nat`/`Int` where the source only
  ever holds integers, and as `ℚ` where fractional values occur
  (normalized audio samples, resampling positions).  Divisions by zero are
  commented at each site where the JS NaN/Infinity behaviour matters.
- Fallible code returns `Except String` (the string is the Error message).
- Regular-expression matching is embedded by a small backtracking engine
  (`RE`, `matchPre`) that reproduces the ECMAScript semantics used by the
  source patterns: priority-ordered alternation, greedy quantifiers that
  refuse empty iterations, word boundaries, positive lookahead, and
  case-insensitive matching baked into the character predicates.  The
  engine is fuel-based for structural termination; running out of fuel
  poisons the result (`Option.none`) instead of silently truncating, so a
  concrete evaluation that produces `some _` was computed in full.
-/

set_option maxHeartbeats 1000000

namespace SecureScribe

/-! ### JavaScript string primitives -/

/-- ECMAScript word character (the `\w` class used by `\b`): `[A-Za-z0-9_]`. -/
def isWordChar (c : Char) : Bool :=
  ('a' ≤ c && c ≤ 'z') || ('A' ≤ c && c ≤ 'Z') || ('0' ≤ c && c ≤ '9') || c == '_'

/-- ECMAScript whitespace (`\s`): ASCII whitespace, NBSP, and the Unicode
space separators recognised by JS regexes. -/
def isJsSpace (c : Char) : Bool :=
  c == ' ' || c == '\t' || c == '\n' || c == '\r' || c == '\x0b' || c == '\x0c' ||
  c == ' ' || c.val == 0x1680 || (0x2000 ≤ c.val && c.val ≤ 0x200a) ||
  c.val == 0x2028 || c.val == 0x2029 || c.val == 0x202f || c.val == 0x205f ||
  c.val == 0x3000 || c.val == 0xfeff

/-- Lower-casing of one character.  `String.prototype.toLowerCase` only
affects ASCII letters on the character repertoire the PII detectors can
produce (ASCII letters, digits, separators and Unicode spaces), so mapping
`A`–`Z` and leaving everything else unchanged is faithful there. -/
def jsToLowerChar (c : Char) : Char :=
  if 'A' ≤ c && c ≤ 'Z' then Char.ofNat (c.toNat + 32) else c

/-- `String.prototype.toLowerCase`, character-wise (see `jsToLowerChar`). -/
def jsToLower (s : String) : String := ⟨s.data.map jsToLowerChar⟩

/-- Case-insensitive character comparison as performed by the ECMAScript
`i` flag (case folding; coincides with lower-case folding on ASCII). -/
def ciEqChar (a b : Char) : Bool := jsToLowerChar a == jsToLowerChar b

/-- Case-insensitive prefix test: does `v` match the beginning of `s`? -/
def ciPrefTest : List Char → List Char → Bool
  | [], _ => true
  | _ :: _, [] => false
  | a :: v, c :: s => ciEqChar a c && ciPrefTest v s

/-- Wordness of an optional character; the edges of the string count as
non-word, as in ECMAScript `\b`. -/
def isWordOpt : Option Char → Bool
  | none => false
  | some c => isWordChar c

/-- ECMAScript word boundary between two adjacent (optional) characters. -/
def boundaryAt (prev next : Option Char) : Bool := isWordOpt prev != isWordOpt next

/-- Worker for `jsIndexOf`: index of the first occurrence of `pat` at or
after position `i`, else `-1`. -/
def idxOfAux (pat : List Char) : Int → List Char → Int
  | i, [] => if pat.isEmpty then i else -1
  | i, s@(_ :: rest) => if pat.isPrefixOf s then i else idxOfAux pat (i + 1) rest

/-- `String.prototype.indexOf`: position of the first (case-sensitive)
occurrence of `pat` in `s`, or `-1`. -/
def jsIndexOf (s pat : String) : Int := idxOfAux pat.data 0 s.data

/-- Substring occurrence test, via `jsIndexOf` (as JS `includes`). -/
def hasSubstr (s pat : String) : Bool := jsIndexOf s pat != -1

/-- Worker for `replaceLit`: scan left-to-right, replacing every
(case-sensitive, non-overlapping) occurrence of `pat` by `rep`.  The fuel
is at least `s.length + 1`, enough for the scan since every step consumes
at least one character; fuel exhaustion returns the rest unchanged and is
unreachable.  An empty `pat` never occurs in the source's uses (patterns
are the nonempty placeholder strings); we leave the string unchanged then. -/
def rlAux (pat rep : List Char) : Nat → List Char → List Char
  | 0, s => s
  | _ + 1, [] => []
  | fuel + 1, s@(c :: rest) =>
    if !pat.isEmpty && pat.isPrefixOf s then rep ++ rlAux pat rep fuel (s.drop pat.length)
    else c :: rlAux pat rep fuel rest

/-- Literal global replacement: `s.replace(new RegExp(escapeRegex(pat), 'g'), rep)`.
`escapeRegex` makes the pattern a literal string, so this is plain
substring replacement. -/
def replaceLit (s pat rep : String) : String := ⟨rlAux pat.data rep.data (s.data.length + 1) s.data⟩

/-- Worker for `replaceWordCI`: global, case-insensitive, word-boundary
anchored replacement of the literal `v` by `p`.  `prev` is the character
preceding the scan position in the original string (word boundaries are
judged on the original text, and the scan resumes after each match, as the
ECMAScript `lastIndex` mechanism does).  Fuel as in `rlAux`. -/
def rwcAux (v p : List Char) : Nat → Option Char → List Char → List Char
  | 0, _, s => s
  | _ + 1, _, [] => []
  | fuel + 1, prev, s@(c :: rest) =>
    if !v.isEmpty && ciPrefTest v s && boundaryAt prev (some c) &&
        boundaryAt (s.take v.length).getLast? (s.drop v.length).head? then
      p ++ rwcAux v p fuel (s.take v.length).getLast? (s.drop v.length)
    else c :: rwcAux v p fuel (some c) rest

/-- `s.replace(new RegExp('\\b' + escapeRegex(v) + '\\b', 'gi'), p)`:
replace every case-insensitive occurrence of the literal `v` that sits
between word boundaries. -/
def replaceWordCI (s v p : String) : String :=
  ⟨rwcAux v.data p.data (s.data.length + 1) none s.data⟩

/-! ### A small ECMAScript regex engine

Only the constructs appearing in the source's patterns are embedded:
character classes, sequencing, prioritized alternation, greedy `*` (and
through desugaring `+`, `?`, `{m}`, `{m,}`, `{m,n}`), word boundaries and
positive lookahead.  `matchPre` returns the list of possible
(last-character, remaining-suffix) states in backtracking priority order,
so the head of the list is the match the ECMAScript engine commits to. -/

inductive RE where
  | eps : RE
  | cls (p : Char → Bool) : RE
  | seq (a b : RE) : RE
  | alt (a b : RE) : RE
  | star (r : RE) : RE
  | look (r : RE) : RE
  | wordB : RE

/-- Monadic flat-map over the fuel-poisoned option layer. -/
def flatMapM (f : α → Option (List β)) : List α → Option (List β)
  | [] => some []
  | a :: as =>
    match f a, flatMapM f as with
    | some xs, some ys => some (xs ++ ys)
    | _, _ => none

/-- Backtracking matcher.  `matchPre fuel re prev s` returns, in priority
order, every `(prev', s')` state reachable by matching `re` at the start
of `s` (with `prev` the character just before `s`, for `\b`).  Greedy
`star` follows the ECMAScript RepeatMatcher: an iteration that consumes
nothing is discarded, and the empty repetition has lowest priority.
Fuel decreases on every recursive call; `none` means fuel ran out. -/
def matchPre : Nat → RE → Option Char → List Char → Option (List (Option Char × List Char))
  | 0, _, _, _ => none
  | _ + 1, .eps, prev, s => some [(prev, s)]
  | _ + 1, .cls _, _, [] => some []
  | _ + 1, .cls f, _, c :: t => some (if f c then [(some c, t)] else [])
  | fuel + 1, .seq a b, prev, s =>
    match matchPre fuel a prev s with
    | none => none
    | some rs => flatMapM (fun pr => matchPre fuel b pr.1 pr.2) rs
  | fuel + 1, .alt a b, prev, s =>
    match matchPre fuel a prev s, matchPre fuel b prev s with
    | some xs, some ys => some (xs ++ ys)
    | _, _ => none
  | fuel + 1, .star r, prev, s =>
    match matchPre fuel r prev s with
    | none => none
    | some rs =>
      match flatMapM (fun pr => matchPre fuel (.star r) pr.1 pr.2)
          (rs.filter (fun pr => pr.2.length < s.length)) with
      | none => none
      | some xs => some (xs ++ [(prev, s)])
  | fuel + 1, .look r, prev, s =>
    match matchPre fuel r prev s with
    | none => none
    | some rs => some (if rs.isEmpty then [] else [(prev, s)])
  | _ + 1, .wordB, prev, s => some (if boundaryAt prev s.head? then [(prev, s)] else [])

/-- Fuel bound for `matchPre`: generous with respect to the recursion depth
of every pattern in this file on the inputs it is evaluated on (the depth
is at most about `patternSize * (length + 1)`, and our largest pattern has
well under 1000 nodes). -/
def reFuel (s : List Char) : Nat := 1000 * (s.length + 2)

/-- One `regex.exec` sweep, as performed by the source's
`while ((match = pattern.exec(text)) !== null)` loops with the `g` flag:
find the leftmost match at or after the current position, record the
matched substring, and resume after it (advancing by one character on an
empty match, as `lastIndex++` does).  The outer fuel only needs
`s.length + 1` since every step consumes at least one character. -/
def execScan (re : RE) : Nat → Option Char → List Char → Option (List (List Char))
  | 0, _, _ => none
  | fuel + 1, prev, s =>
    match matchPre (reFuel s) re prev s with
    | none => none
    | some [] =>
      match s with
      | [] => some []
      | c :: t => execScan re fuel (some c) t
    | some (r :: _) =>
      let k := s.length - r.2.length
      let matched := s.take k
      if k == 0 then
        match s with
        | [] => some [[]]
        | c :: t =>
          match execScan re fuel (some c) t with
          | none => none
          | some ms => some ([] :: ms)
      else
        match execScan re fuel matched.getLast? r.2 with
        | none => none
        | some ms => some (matched :: ms)

/-- All matches of `re` on `text`, in order (the `pattern.exec` loop). -/
def execAll (re : RE) (text : List Char) : Option (List (List Char)) :=
  execScan re (text.length + 1) none text

/-! Pattern building blocks (desugared quantifiers, in greedy priority). -/

/-- Literal character. -/
def reChar (c : Char) : RE := .cls (fun x => x == c)

/-- Literal character under the `i` flag. -/
def reCharCI (c : Char) : RE := .cls (fun x => ciEqChar x c)

/-- Literal string. -/
def reStr (s : String) : RE := s.data.foldr (fun c r => .seq (reChar c) r) .eps

/-- Literal string under the `i` flag. -/
def reStrCI (s : String) : RE := s.data.foldr (fun c r => .seq (reCharCI c) r) .eps

/-- Greedy `r?`. -/
def reOpt (r : RE) : RE := .alt r .eps

/-- Greedy `r+`. -/
def rePlus (r : RE) : RE := .seq r (.star r)

/-- `r{n}`. -/
def reRep (r : RE) : Nat → RE
  | 0 => .eps
  | n + 1 => .seq r (reRep r n)

/-- Greedy chain of up to `n` extra copies of `r` (priority: more first). -/
def reUpTo (r : RE) : Nat → RE
  | 0 => .eps
  | n + 1 => .alt (.seq r (reUpTo r n)) .eps

/-- Greedy `r{m,n}`: `m` mandatory copies then up to `n - m` more. -/
def reRepRange (r : RE) (m n : Nat) : RE := .seq (reRep r m) (reUpTo r (n - m))

/-- Greedy `r{m,}`. -/
def reRepAtLeast (r : RE) (m : Nat) : RE := .seq (reRep r m) (.star r)

/-- First-match-priority alternation of a nonempty list (left first). -/
def reAlts : List RE → RE
  | [] => .eps
  | [r] => r
  | r :: rs => .alt r (reAlts rs)

/-- A sequence of regex pieces. -/
def reSeqs : List RE → RE
  | [] => .eps
  | [r] => r
  | r :: rs => .seq r (reSeqs rs)

/-- ECMAScript `.` without the `s` flag: anything but a line terminator. -/
def reDot : RE := .cls (fun c => !(c == '\n' || c == '\r' || c.val == 0x2028 || c.val == 0x2029))

/-- `[0-9]` and `\d`. -/
def reDigit : RE := .cls (fun c => '0' ≤ c && c ≤ '9')

/-- `[A-Z]`. -/
def reUpper : RE := .cls (fun c => 'A' ≤ c && c ≤ 'Z')

/-- `[a-z]`. -/
def reLower : RE := .cls (fun c => 'a' ≤ c && c ≤ 'z')

/-- `\s` as a single-character class. -/
def reWs : RE := .cls isJsSpace

/-! ### The PII detector patterns (src/services/anonymization.ts, PII_PATTERNS)

Each definition embeds the regular expression literal of the source, in
the same order and with the same flags (`gi` where the source uses it). -/

/-- The separator class `[-.\s]` of the phone pattern. -/
def rePhoneSep : RE := .cls (fun c => c == '-' || c == '.' || isJsSpace c)

/-- `/\b(?:\+?1[-.\s]?)?\(?[0-9]{3}\)?[-.\s]?[0-9]{3}[-.\s]?[0-9]{4}\b/g` -/
def phoneRE : RE := reSeqs
  [ .wordB,
    reOpt (reSeqs [reOpt (reChar '+'), reChar '1', reOpt rePhoneSep]),
    reOpt (reChar '('), reRep reDigit 3, reOpt (reChar ')'),
    reOpt rePhoneSep, reRep reDigit 3, reOpt rePhoneSep, reRep reDigit 4,
    .wordB ]

/-- `/\b[A-Za-z0-9._%+-]+@[A-Za-z0-9.-]+\.[A-Z|a-z]{2,}\b/g` (note the
literal `|` inside the final class, as in the source). -/
def emailRE : RE := reSeqs
  [ .wordB,
    rePlus (.cls (fun c => ('A' ≤ c && c ≤ 'Z') || ('a' ≤ c && c ≤ 'z') ||
      ('0' ≤ c && c ≤ '9') || c == '.' || c == '_' || c == '%' || c == '+' || c == '-')),
    reChar '@',
    rePlus (.cls (fun c => ('A' ≤ c && c ≤ 'Z') || ('a' ≤ c && c ≤ 'z') ||
      ('0' ≤ c && c ≤ '9') || c == '.' || c == '-')),
    reChar '.',
    reRepAtLeast (.cls (fun c => ('A' ≤ c && c ≤ 'Z') || c == '|' || ('a' ≤ c && c ≤ 'z'))) 2,
    .wordB ]

/-- `/\b(?:\d{4}[-\s]?){3}\d{4}\b/g` -/
def creditCardRE : RE := reSeqs
  [ .wordB,
    reRep (reSeqs [reRep reDigit 4, reOpt (.cls (fun c => c == '-' || isJsSpace c))]) 3,
    reRep reDigit 4, .wordB ]

/-- `/\b\d{3}-\d{2}-\d{4}\b/g` -/
def ssnRE : RE := reSeqs
  [ .wordB, reRep reDigit 3, reChar '-', reRep reDigit 2, reChar '-', reRep reDigit 4, .wordB ]

/-- `/\b[A-Z]{1,2}\d{6,9}\b/g` -/
def passportRE : RE := reSeqs
  [ .wordB, reRepRange reUpper 1 2, reRepRange reDigit 6 9, .wordB ]

/-- The street-suffix alternation of the address pattern, in source order
(including the duplicated `Park`). -/
def addressSuffixes : List String :=
  ["Street", "St", "Avenue", "Ave", "Road", "Rd", "Boulevard", "Blvd", "Drive", "Dr",
   "Lane", "Ln", "Court", "Ct", "Circle", "Cir", "Terrace", "Ter", "Way", "Park",
   "Parkway", "Pkwy", "Place", "Pl", "Square", "Sq", "Trail", "Trl", "Park"]

/-- `/\b\d+\s+[A-Za-z\s]+(?:Street|St|...|Trl|Park)\b/gi` -/
def addressRE : RE := reSeqs
  [ .wordB, rePlus reDigit, rePlus reWs,
    rePlus (.cls (fun c => ('A' ≤ c && c ≤ 'Z') || ('a' ≤ c && c ≤ 'z') || isJsSpace c)),
    reAlts (addressSuffixes.map reStrCI), .wordB ]

/-- `/\b\d{9,17}\b(?=.*account|.*account)/gi` -/
def bankAccountRE : RE := reSeqs
  [ .wordB, reRepRange reDigit 9 17, .wordB,
    .look (.alt (.seq (.star reDot) (reStrCI "account"))
               (.seq (.star reDot) (reStrCI "account"))) ]

/-- `/\b[A-Z]{2}\d{10}\b/g` -/
def healthInsuranceIdRE : RE := reSeqs
  [ .wordB, reRep reUpper 2, reRep reDigit 10, .wordB ]

/-- `/\b(?:0[1-9]|1[0-2])[-\/](?:0[1-9]|[12]\d|3[01])[-\/](?:19|20)\d{2}\b/g` -/
def dateOfBirthRE : RE := reSeqs
  [ .wordB,
    .alt (.seq (reChar '0') (.cls (fun c => '1' ≤ c && c ≤ '9')))
         (.seq (reChar '1') (.cls (fun c => '0' ≤ c && c ≤ '2'))),
    .cls (fun c => c == '-' || c == '/'),
    reAlts
      [ .seq (reChar '0') (.cls (fun c => '1' ≤ c && c ≤ '9')),
        .seq (.cls (fun c => c == '1' || c == '2')) reDigit,
        .seq (reChar '3') (.cls (fun c => c == '0' || c == '1')) ],
    .cls (fun c => c == '-' || c == '/'),
    .alt (reStr "19") (reStr "20"),
    reRep reDigit 2, .wordB ]

/-- `/\b(?:[0-9]{1,3}\.){3}[0-9]{1,3}\b/g` -/
def ipAddressRE : RE := reSeqs
  [ .wordB, reRep (.seq (reRepRange reDigit 1 3) (reChar '.')) 3,
    reRepRange reDigit 1 3, .wordB ]

/-- `/\b[A-Z][a-z]+(?:\s+[A-Z][a-z]+)*\b/g` — the person-name heuristic. -/
def personRE : RE := reSeqs
  [ .wordB, reUpper, rePlus reLower,
    .star (reSeqs [rePlus reWs, reUpper, rePlus reLower]), .wordB ]

/-- `PII_PATTERNS`, in the object-literal order the source iterates with
`Object.entries`. -/
def piiPatterns : List (String × RE) :=
  [ ("phone", phoneRE), ("email", emailRE), ("creditCard", creditCardRE),
    ("ssn", ssnRE), ("passport", passportRE), ("address", addressRE),
    ("bankAccount", bankAccountRE), ("healthInsuranceId", healthInsuranceIdRE),
    ("dateOfBirth", dateOfBirthRE), ("ipAddress", ipAddressRE) ]

/-! ### anonymizeTranscription (src/services/anonymization.ts) -/

/-- One detected PII match: category tag, matched substring, and the
synthetic placeholder assigned to it (interface `PiiMatch`). -/
structure PiiMatch where
  type : String
  value : String
  placeholder : String
  deriving Repr, DecidableEq

/-- Result of `anonymizeTranscription` (interface `AnonymizationResult`).
The JS `mappings` object is embedded as an association list in key
insertion order, which is the order `Object.entries` iterates. -/
structure AnonymizationResult where
  anonymized : String
  mappings : List (String × String)
  deriving Repr, DecidableEq

/-- The per-category counters, initialised to 1 for every category, as the
`counters` record literal in the source. -/
def initCounters : List (String × Nat) :=
  [ ("phone", 1), ("email", 1), ("creditCard", 1), ("ssn", 1), ("passport", 1),
    ("address", 1), ("bankAccount", 1), ("healthInsuranceId", 1), ("dateOfBirth", 1),
    ("ipAddress", 1), ("person", 1) ]

/-- Counter lookup; every category used is present in `initCounters`, so
the default is never taken on the source's inputs. -/
def ctrGet (cs : List (String × Nat)) (t : String) : Nat :=
  match cs.find? (fun p => p.1 == t) with
  | some p => p.2
  | none => 1

/-- Counter update (in place, keeping position). -/
def ctrSet (cs : List (String × Nat)) (t : String) (n : Nat) : List (String × Nat) :=
  if cs.any (fun p => p.1 == t) then cs.map (fun p => if p.1 == t then (t, n) else p)
  else cs ++ [(t, n)]

/-- The placeholder string `` `<${type} ${counters[type]}>` ``. -/
def mkPlaceholder (t : String) (n : Nat) : String :=
  "<" ++ t ++ " " ++ toString n ++ ">"

/-- Push the matches of one category: each occurrence gets the current
counter value as its placeholder number, and the counter is incremented
for every occurrence (`counters[type]++` in the exec loop). -/
def pushVals (t : String) : List (String × Nat) → List String →
    List PiiMatch × List (String × Nat)
  | cs, [] => ([], cs)
  | cs, v :: vs =>
    let n := ctrGet cs t
    let rest := pushVals t (ctrSet cs t (n + 1)) vs
    (⟨t, v, mkPlaceholder t n⟩ :: rest.1, rest.2)

/-- Phase 1 of `anonymizeTranscription` (lines 43–53): run every detector
in `PII_PATTERNS` order and collect all matches with their placeholders.
The per-category match lists are a parameter here so that the counter and
placeholder logic can be reasoned about for arbitrary detector output. -/
def buildPatternMatches : List (String × Nat) → List (String × List String) →
    List PiiMatch × List (String × Nat)
  | cs, [] => ([], cs)
  | cs, entry :: rest =>
    let pushed := pushVals entry.1 cs entry.2
    let built := buildPatternMatches pushed.2 rest
    (pushed.1 ++ built.1, built.2)

/-- The capitalized stop-list of `isLikelyPersonName`. -/
def commonWords : List String :=
  ["The", "And", "Or", "But", "In", "On", "At", "To", "For", "Of", "With",
   "By", "From", "Is", "Are", "Was", "Were", "Been", "Be", "Have", "Has",
   "Had", "Do", "Does", "Did", "Will", "Would", "Should", "Could", "May",
   "Might", "Must", "Can"]

/-- `text.split(/\s+/)`: split on maximal whitespace runs, with the empty
leading/trailing pieces ECMAScript `split` produces at the edges.  The
Boolean is true while skipping a separator run. -/
def splitWsGo : Bool → List Char → List Char → List (List Char)
  | false, cur, [] => [cur.reverse]
  | false, cur, c :: t =>
    if isJsSpace c then cur.reverse :: splitWsGo true [] t else splitWsGo false (c :: cur) t
  | true, _, [] => [[]]
  | true, _, c :: t =>
    if isJsSpace c then splitWsGo true [] t else splitWsGo false [c] t

/-- `text.split(/\s+/)` on a string. -/
def splitWsJS (s : String) : List String := (splitWsGo false [] s.data).map (⟨·⟩)

/-- `isLikelyPersonName` (src/services/anonymization.ts, lines 92–104). -/
def isLikelyPersonName (s : String) : Bool :=
  if commonWords.contains s then false
  else
    let words := splitWsJS s
    if words.length == 1 then false
    else words.all (fun w =>
      (match w.data with
       | [] => false
       | c :: _ => 'A' ≤ c && c ≤ 'Z') && w.length > 1)

/-- Phase 2 (lines 55–68): walk the person-name candidates, appending a
`person` match for each candidate that is not already a matched value and
passes `isLikelyPersonName`; the person counter increments per push.  The
`matches.some` test also sees person matches pushed earlier in this loop. -/
def personPhase (cs : List (String × Nat)) (ms : List PiiMatch) : List String → List PiiMatch
  | [] => ms
  | v :: vs =>
    if ms.any (fun m => m.value == v) || !isLikelyPersonName v then
      personPhase cs ms vs
    else
      let n := ctrGet cs "person"
      personPhase (ctrSet cs "person" (n + 1)) (ms ++ [⟨"person", v, mkPlaceholder "person" n⟩]) vs

/-- Stable insertion used by `sortByPosDesc`: `m` goes before the first
element whose first-occurrence position is strictly smaller, i.e. after
every element of greater or equal position, which preserves the original
order of ties. -/
def insDesc (text : String) (m : PiiMatch) : List PiiMatch → List PiiMatch
  | [] => [m]
  | x :: xs =>
    if jsIndexOf text m.value > jsIndexOf text x.value then m :: x :: xs
    else x :: insDesc text m xs

/-- Lines 70–74: `matches.sort((a, b) => posB - posA)` with
`pos = text.indexOf(value)` — a stable sort by descending first-occurrence
position (ECMAScript `Array.prototype.sort` is stable). -/
def sortByPosDesc (text : String) (l : List PiiMatch) : List PiiMatch :=
  l.foldl (fun acc m => insDesc text m acc) []

/-- Lines 76–81: keep only the first match (in sorted order) for each
lower-cased value. -/
def dedupCI (seen : List String) : List PiiMatch → List PiiMatch
  | [] => []
  | m :: ms =>
    let lv := jsToLower m.value
    if seen.contains lv then dedupCI seen ms else m :: dedupCI (lv :: seen) ms

/-- `mappings[placeholder] = value` on a JS object: overwrite in place if
the key exists, else append (key insertion order). -/
def recordSet (m : List (String × String)) (k v : String) : List (String × String) :=
  if m.any (fun p => p.1 == k) then m.map (fun p => if p.1 == k then (k, v) else p)
  else m ++ [(k, v)]

/-- Lines 83–89: the substitution loop over the deduplicated matches. -/
def runSubs : List PiiMatch → String → List (String × String) →
    String × List (String × String)
  | [], anon, maps => (anon, maps)
  | m :: rest, anon, maps =>
    runSubs rest (replaceWordCI anon m.value m.placeholder) (recordSet maps m.placeholder m.value)

/-- The deterministic core of `anonymizeTranscription`, parameterized by
the per-category detector outputs (phase 1) and the person-regex
candidates (phase 2); everything after the regex executions is embedded
here exactly. -/
def anonymizeCore (pm : List (String × List String)) (personCands : List String)
    (text : String) : AnonymizationResult :=
  let built := buildPatternMatches initCounters pm
  let allMs := personPhase built.2 built.1 personCands
  let sorted := sortByPosDesc text allMs
  let um := dedupCI [] sorted
  let sub := runSubs um text []
  ⟨sub.1, sub.2⟩

/-- The deduplicated match list `uniqueMatches` computed on the way. -/
def uniqueMatchesOf (pm : List (String × List String)) (personCands : List String)
    (text : String) : List PiiMatch :=
  dedupCI [] (sortByPosDesc text (personPhase (buildPatternMatches initCounters pm).2
    (buildPatternMatches initCounters pm).1 personCands))

/-- Total number of matches (occurrences, duplicates included) the
detector entries of category `t` contribute. -/
def countValsOf (pm : List (String × List String)) (t : String) : Nat :=
  ((pm.filter (fun p => p.1 == t)).map (fun p => p.2.length)).sum

/-- Run the `PII_PATTERNS` detectors over the text. -/
def runDetectors (text : List Char) : List (String × RE) → Option (List (String × List String))
  | [] => some []
  | (t, re) :: rest =>
    match execAll re text, runDetectors text rest with
    | some vs, some r => some ((t, vs.map (fun l => (⟨l⟩ : String))) :: r)
    | _, _ => none

/-- `anonymizeTranscription` (lines 31–90).  The result is `some` whenever
the regex engine's fuel did not run out, which is the case on every
concrete text this file evaluates it on. -/
def anonymizeTranscription (text : String) : Option AnonymizationResult :=
  match runDetectors text.data piiPatterns, execAll personRE text.data with
  | some pm, some pc => some (anonymizeCore pm (pc.map (fun l => (⟨l⟩ : String))) text)
  | _, _ => none

/-- `reversePIIMappings` (lines 109–116): literal global replacement of
each placeholder by its original value, in mapping insertion order. -/
def reversePIIMappings (text : String) (mappings : List (String × String)) : String :=
  mappings.foldl (fun acc p => replaceLit acc p.1 p.2) text

/-! ### WAV decoding and resampling (src/services/whisper/config.ts)

Bytes are embedded as `List Nat` (each under 256); samples as `ℚ`.  All
`DataView` reads performed by the source are in bounds (the chunk walk
guards them), so reading with default 0 is faithful there. -/

/-- `bytes[i]`, with 0 for an out-of-bounds read. -/
def byteAt (bytes : List Nat) (i : Nat) : Nat := bytes.getD i 0

/-- `view.getUint16(i, true)` (little endian). -/
def readU16 (bytes : List Nat) (i : Nat) : Nat := byteAt bytes i + 256 * byteAt bytes (i + 1)

/-- `view.getUint32(i, true)` (little endian). -/
def readU32 (bytes : List Nat) (i : Nat) : Nat :=
  byteAt bytes i + 256 * byteAt bytes (i + 1) + 65536 * byteAt bytes (i + 2) +
    16777216 * byteAt bytes (i + 3)

/-- Two's-complement interpretation of a 16-bit word (`view.getInt16`). -/
def toInt16 (w : Nat) : Int := if w < 32768 then (w : Int) else (w : Int) - 65536

/-- Two's-complement interpretation of a 32-bit word (`view.getInt32`). -/
def toInt32 (w : Nat) : Int := if w < 2147483648 then (w : Int) else (w : Int) - 4294967296

/-- `String.fromCodePoint(bytes[i], ..., bytes[i+3])` for the chunk-id and
header comparisons. -/
def fourCCStr (bytes : List Nat) (i : Nat) : String :=
  ⟨[Char.ofNat (byteAt bytes i), Char.ofNat (byteAt bytes (i + 1)),
    Char.ofNat (byteAt bytes (i + 2)), Char.ofNat (byteAt bytes (i + 3))]⟩

/-- The `fmt ` chunk fields carried by the chunk walk (the four mutable
locals of `parseWavToFloat32`, all initialised to 0). -/
structure FmtInfo where
  audioFormat : Nat
  numChannels : Nat
  sampleRate : Nat
  bitsPerSample : Nat
  deriving Repr, DecidableEq

/-- `samples[i] ?? 0` where `i` may be any integer index. -/
def getQ (samples : List ℚ) (i : Int) : ℚ :=
  if i < 0 then 0 else samples.getD i.toNat 0

/-- `resample` (lines 227–246): linear-interpolation resampler.
JS numerics at the edge cases: with `fromRate = toRate = 0` the JS ratio
is `NaN`, `Math.floor(len / NaN)` is `NaN`, and `new Float32Array(NaN)`
has length 0 — the rational convention `x / 0 = 0` used here produces the
same empty output.  (A call with `fromRate = 0 ≠ toRate` would throw a
`RangeError` in JS; no claim and no caller exercises it.) -/
def resample (samples : List ℚ) (fromRate toRate : ℚ) : List ℚ :=
  let ratio : ℚ := fromRate / toRate
  let outputLength : Nat := (⌊(samples.length : ℚ) / ratio⌋).toNat
  (List.range outputLength).map (fun (i : Nat) =>
    let srcIndex : ℚ := (i : ℚ) * ratio
    let srcFloor : Int := ⌊srcIndex⌋
    let srcCeil : Int := min (srcFloor + 1) ((samples.length : Int) - 1)
    let frac : ℚ := srcIndex - (srcFloor : ℚ)
    getQ samples srcFloor * (1 - frac) + getQ samples srcCeil * frac)

/-- The per-frame channel loop of `extractPcmSamples` (lines 192–211):
read one sample per channel, normalize, and sum; a read that would pass
the end of the buffer breaks out of the loop, keeping the partial sum; an
unsupported bit depth throws.  `chans` is the list of channel indices
`0, ..., numChannels - 1` still to visit. -/
def chanFold (bytes : List Nat) (dataStart bits numChannels i : Nat) (bpsQ : ℚ) :
    List Nat → ℚ → Except String ℚ
  | [], acc => .ok acc
  | ch :: chans, acc =>
    let sampleOffsetQ : ℚ := (dataStart : ℚ) + ((i * numChannels + ch : Nat) : ℚ) * bpsQ
    if sampleOffsetQ + bpsQ > (bytes.length : ℚ) then .ok acc
    else if bits == 16 then
      let off := dataStart + (i * numChannels + ch) * 2
      chanFold bytes dataStart bits numChannels i bpsQ chans
        (acc + (toInt16 (readU16 bytes off) : ℚ) / 32768)
    else if bits == 32 then
      let off := dataStart + (i * numChannels + ch) * 4
      chanFold bytes dataStart bits numChannels i bpsQ chans
        (acc + (toInt32 (readU32 bytes off) : ℚ) / 2147483648)
    else if bits == 8 then
      let off := dataStart + (i * numChannels + ch) * 1
      chanFold bytes dataStart bits numChannels i bpsQ chans
        (acc + ((bytes.getD off 128 : ℚ) - 128) / 128)
    else .error ("Unsupported PCM bit depth: " ++ toString bits)

/-- The frame loop of `extractPcmSamples`, over the frame indices. -/
def frameLoop (bytes : List Nat) (dataStart bits numChannels : Nat) (bpsQ : ℚ) :
    List Nat → Except String (List ℚ)
  | [] => .ok []
  | i :: is =>
    match chanFold bytes dataStart bits numChannels i bpsQ (List.range numChannels) 0 with
    | .error e => .error e
    | .ok sum =>
      match frameLoop bytes dataStart bits numChannels bpsQ is with
      | .error e => .error e
      | .ok rest => .ok (sum / (numChannels : ℚ) :: rest)

/-- `extractPcmSamples` (lines 177–221).  `bytesPerSample` is the JS
float `bitsPerSample / 8`, kept as a rational; for the supported depths
it is the integer 1, 2 or 4.  (With `numChannels = 0` JS would divide by
zero and throw a `RangeError`; the rational convention yields an empty
result — no claim exercises that case.) -/
def extractPcmSamples (bytes : List Nat)
    (dataStart dataLength bitsPerSample numChannels sampleRate : Nat) :
    Except String (List ℚ) :=
  let bpsQ : ℚ := (bitsPerSample : ℚ) / 8
  let totalSamples : Nat := (⌊(dataLength : ℚ) / (bpsQ * (numChannels : ℚ))⌋).toNat
  match frameLoop bytes dataStart bitsPerSample numChannels bpsQ (List.range totalSamples) with
  | .error e => .error e
  | .ok monoSamples =>
    if sampleRate == 16000 then .ok monoSamples
    else .ok (resample monoSamples (sampleRate : ℚ) 16000)

/-- The chunk walk of `parseWavToFloat32` (lines 119–170): starting at
offset 12, read chunk id and little-endian size; record the `fmt ` fields;
stop at `data` and extract; skip other chunks with word alignment.  The
loop guard is `offset < bytes.length - 8`, written `offset + 8 <
bytes.length` to avoid truncated subtraction.  The fuel is
`bytes.length + 1` at the top-level call; since every iteration advances
`offset` by at least 8, the walk performs at most `bytes.length / 8 + 1`
iterations and the fuel-exhaustion branch (which returns the same error as
the natural loop exit) is unreachable. -/
def parseChunks (bytes : List Nat) : Nat → Nat → FmtInfo → Except String (List ℚ)
  | 0, _, _ => .error "No data chunk found in WAV file."
  | fuel + 1, offset, fmt =>
    if offset + 8 < bytes.length then
      let chunkId := fourCCStr bytes offset
      let chunkSize := readU32 bytes (offset + 4)
      let fmt' :=
        if chunkId == "fmt " then
          { audioFormat := readU16 bytes (offset + 8),
            numChannels := readU16 bytes (offset + 10),
            sampleRate := readU32 bytes (offset + 12),
            bitsPerSample := readU16 bytes (offset + 22) }
        else fmt
      if chunkId == "data" then
        let dataStart := offset + 8
        let dataLength := min chunkSize (bytes.length - dataStart)
        if fmt'.audioFormat != 1 then
          .error ("Unsupported WAV format: expected PCM (1), got " ++
            toString fmt'.audioFormat ++ ". " ++
            "Only uncompressed PCM WAV files are supported for local transcription.")
        else
          extractPcmSamples bytes dataStart dataLength fmt'.bitsPerSample fmt'.numChannels
            fmt'.sampleRate
      else
        let next := offset + 8 + chunkSize
        parseChunks bytes fuel (if chunkSize % 2 != 0 then next + 1 else next) fmt'
    else .error "No data chunk found in WAV file."

/-- `parseWavToFloat32` (lines 105–170). -/
def parseWavToFloat32 (bytes : List Nat) : Except String (List ℚ) :=
  let riff := fourCCStr bytes 0
  if riff != "RIFF" then
    .error ("Not a valid WAV file: expected RIFF header, got \"" ++ riff ++ "\"")
  else
    let wave := fourCCStr bytes 8
    if wave != "WAVE" then
      .error ("Not a valid WAV file: expected WAVE format, got \"" ++ wave ++ "\"")
    else parseChunks bytes (bytes.length + 1) 12 ⟨0, 0, 0, 0⟩

/-- A 16-bit value in little-endian bytes. -/
def le16 (n : Nat) : List Nat := [n % 256, n / 256 % 256]

/-- A 32-bit value in little-endian bytes. -/
def le32 (n : Nat) : List Nat :=
  [n % 256, n / 256 % 256, n / 65536 % 256, n / 16777216 % 256]

/-- ASCII bytes of a four-character chunk id. -/
def ccBytes (s : String) : List Nat := s.data.map Char.toNat

/-- Bytes 8–39 of the canonical WAV header: `WAVE`, then a standard
16-byte `fmt ` chunk (PCM, 1 channel, 16000 Hz, 32000 B/s, block align 2,
16 bits per sample), then the `data` chunk id. -/
def wavMid : List Nat :=
  ccBytes "WAVE" ++ ccBytes "fmt " ++ le32 16 ++ le16 1 ++ le16 1 ++
  le32 16000 ++ le32 32000 ++ le16 2 ++ le16 16 ++ ccBytes "data"

/-- The 44 header bytes of a canonical 16-bit mono 16 kHz PCM WAV with a
`data` chunk of `dataLen` bytes: `RIFF`, the RIFF size, `wavMid`, and the
`data` chunk size. -/
def mkWavHdr (dataLen : Nat) : List Nat :=
  ccBytes "RIFF" ++ le32 (36 + dataLen) ++ wavMid ++ le32 dataLen

/-- A synthetic, well-formed 16-bit mono 16 kHz PCM WAV byte buffer whose
data chunk holds exactly the given frames (each a raw 16-bit sample word,
stored little-endian). -/
def mkWav16 (frames : List Nat) : List Nat :=
  let payload := frames.flatMap (fun w => [w % 256, w / 256 % 256])
  mkWavHdr payload.length ++ payload

/-! ### The BPE tokenizer (src/services/gliner/tokenizer.ts)

JS `Map`s are embedded as association lists with `Map` semantics: `set`
overwrites in place or appends, `get` finds the unique entry. -/

/-- `Map.get`. -/
def mapGetS (m : List (String × Nat)) (k : String) : Option Nat :=
  (m.find? (fun p => p.1 == k)).map (fun p => p.2)

/-- `Map.set`: overwrite keeping position, else append. -/
def mapSetS (m : List (String × Nat)) (k : String) (v : Nat) : List (String × Nat) :=
  if m.any (fun p => p.1 == k) then m.map (fun p => if p.1 == k then (k, v) else p)
  else m ++ [(k, v)]

/-- `Map.get` for the byte encoder. -/
def mapGetN (m : List (Nat × String)) (k : Nat) : Option String :=
  (m.find? (fun p => p.1 == k)).map (fun p => p.2)

/-- `buildByteEncoder` (lines 52–74): the 188 printable byte values map to
themselves; the remaining 68 bytes (in ascending order, as the `b = 0..255`
loop visits them) map to code points 256, 257, ....  `String.fromCharCode`
on these code points (all below 0xD800) is `Char.ofNat`. -/
def buildByteEncoder : List (Nat × String) :=
  let bs := List.range' 33 94 ++ List.range' 161 12 ++ List.range' 174 82
  let extras := (List.range 256).filter (fun b => !bs.contains b)
  let cs := bs ++ (List.range extras.length).map (fun n => 256 + n)
  ((bs ++ extras).zip cs).map (fun p => (p.1, String.mk [Char.ofNat p.2]))

/-- UTF-8 encoding of one scalar value (`TextEncoder`). -/
def utf8EncodeChar (c : Char) : List Nat :=
  let n := c.toNat
  if n < 128 then [n]
  else if n < 2048 then [192 + n / 64, 128 + n % 64]
  else if n < 65536 then [224 + n / 4096, 128 + n / 64 % 64, 128 + n % 64]
  else [240 + n / 262144, 128 + n / 4096 % 64, 128 + n / 64 % 64, 128 + n % 64]

/-- `new TextEncoder().encode(s)`. -/
def utf8Bytes (s : String) : List Nat := s.data.flatMap utf8EncodeChar

/-- One entry of `model.merges`: either a flat `"a b"` string or an array
that the constructor joins with a space. -/
inductive MergeEntry where
  | flat (s : String) : MergeEntry
  | arr (parts : List String) : MergeEntry

/-- One entry of `pre_tokenizer.pretokenizers`: the `type` tag and the
`add_prefix_space` flag, both optional in the duck-typed JSON. -/
structure SubPreTok where
  type : Option String
  addPrefixSpaceFlag : Option Bool

/-- The `pre_tokenizer` object: `type`, the optional nested
`pretokenizers` list, and `add_prefix_space`. -/
structure PreTok where
  type : Option String
  pretokenizers : Option (List SubPreTok)
  addPrefixSpaceFlag : Option Bool

/-- The fields of the tokenizer.json the constructor reads (a typed model
of the duck-typed input: `model.vocab` entries in object order,
`model.merges`, `model.byte_fallback`, `added_tokens` as (content, id)
pairs, and `pre_tokenizer`). -/
structure TokenizerDef where
  vocab : List (String × Nat)
  merges : List MergeEntry
  byteFallback : Option Bool
  addedTokens : List (String × Nat)
  preTokenizer : Option PreTok

/-- The `BPETokenizer` instance state (the private fields of the class). -/
structure BPETokenizer where
  vocab : List (String × Nat)
  mergeRanks : List (String × Nat)
  addedTokens : List (String × Nat)
  byteEncoder : List (Nat × String)
  unkTokenId : Nat
  clsTokenId : Nat
  sepTokenId : Nat
  isByteLevelBPE : Bool
  addPrefixSpace : Bool

/-- The `BPETokenizer` constructor (lines 89–141). -/
def BPETokenizer.ofDef (d : TokenizerDef) : BPETokenizer :=
  let vocab0 := d.vocab.foldl (fun m p => mapSetS m p.1 p.2) []
  let mergeRanks := d.merges.enum.foldl (fun m p =>
    match p.2 with
    | .flat s => mapSetS m s p.1
    | .arr parts => mapSetS m (String.intercalate " " parts) p.1) []
  let addedAndVocab := d.addedTokens.foldl
    (fun mv p => (mapSetS mv.1 p.1 p.2, mapSetS mv.2 p.1 p.2)) (([] : List (String × Nat)), vocab0)
  let added := addedAndVocab.1
  let vocab := addedAndVocab.2
  let preTok := d.preTokenizer
  let isByteLevel :=
    (match preTok with
     | some p => p.type == some "ByteLevel"
     | none => false) ||
    (match preTok with
     | some p =>
       match p.pretokenizers with
       | some subs => subs.any (fun q => q.type == some "ByteLevel")
       | none => false
     | none => false) ||
    d.byteFallback == some true
  let addPre :=
    (match preTok with
     | some p => p.addPrefixSpaceFlag == some true
     | none => false) ||
    (match preTok with
     | some p =>
       match p.pretokenizers with
       | some subs => subs.any (fun q => q.type == some "ByteLevel" && q.addPrefixSpaceFlag == some true)
       | none => false
     | none => false)
  { vocab := vocab,
    mergeRanks := mergeRanks,
    addedTokens := added,
    byteEncoder := buildByteEncoder,
    unkTokenId := ((mapGetS vocab "[UNK]").orElse (fun _ => mapGetS vocab "<unk>")).getD 0,
    clsTokenId := ((mapGetS vocab "[CLS]").orElse (fun _ => mapGetS vocab "<s>")).getD 1,
    sepTokenId := ((mapGetS vocab "[SEP]").orElse (fun _ => mapGetS vocab "</s>")).getD 2,
    isByteLevelBPE := isByteLevel,
    addPrefixSpace := addPre }

/-- `getTokenId` (lines 143–145). -/
def BPETokenizer.getTokenId (tok : BPETokenizer) (t : String) : Nat :=
  ((mapGetS tok.addedTokens t).orElse (fun _ => mapGetS tok.vocab t)).getD tok.unkTokenId

/-- The byte-level symbol sequence of a word (lines 161–171): optional
prefix space, UTF-8 bytes, then the byte encoder (whose table covers all
256 bytes, so the `fromCharCode` fallback never fires). -/
def BPETokenizer.byteSymbols (tok : BPETokenizer) (word : String) : List String :=
  let toEncode := if tok.addPrefixSpace then " " ++ word else word
  (utf8Bytes toEncode).map (fun b => (mapGetN tok.byteEncoder b).getD (String.mk [Char.ofNat b]))

/-- Scan all adjacent pairs for the merge of lowest rank (lines 225–235);
strict `<` keeps the earliest pair on rank ties.  The pair is returned as
its two sides (the source stores the joined key and re-splits it on a
space; no symbol contains a space, since the byte encoder never produces
one, so the two are the same). -/
def bestPairAux (ranks : List (String × Nat)) :
    List String → Option ((String × String) × Nat) → Option ((String × String) × Nat)
  | a :: b :: rest, best =>
    let key := a ++ " " ++ b
    let best' :=
      match mapGetS ranks key, best with
      | some r, some pr => if r < pr.2 then some ((a, b), r) else best
      | some r, none => some ((a, b), r)
      | none, _ => best
    bestPairAux ranks (b :: rest) best'
  | _, best => best

/-- Merge every non-overlapping occurrence of the pair, left to right
(lines 242–253). -/
def mergePass (a b : String) : List String → List String
  | x :: y :: rest =>
    if x == a && y == b then (a ++ b) :: mergePass a b rest
    else x :: mergePass a b (y :: rest)
  | l => l

/-- The `while (true)` merge loop of `applyBPE`.  Every iteration with a
best pair merges at least one occurrence, shortening the list, so
`symbols.length + 1` fuel always suffices and the fuel-exhaustion branch
is unreachable. -/
def applyBPEAux (ranks : List (String × Nat)) : Nat → List String → List String
  | 0, symbols => symbols
  | fuel + 1, symbols =>
    match bestPairAux ranks symbols none with
    | none => symbols
    | some pr =>
      let merged := mergePass pr.1.1 pr.1.2 symbols
      if merged.length ≤ 1 then merged else applyBPEAux ranks fuel merged

/-- `applyBPE` (lines 220–260). -/
def BPETokenizer.applyBPE (tok : BPETokenizer) (symbols : List String) : List String :=
  if symbols.length ≤ 1 then symbols
  else applyBPEAux tok.mergeRanks (symbols.length + 1) symbols

/-- `encodeByteLevelBPE` (lines 160–184). -/
def BPETokenizer.encodeByteLevelBPE (tok : BPETokenizer) (word : String) : List Nat :=
  let symbols := tok.byteSymbols word
  if symbols.length == 0 then [tok.unkTokenId]
  else if symbols.length == 1 then
    match mapGetS tok.vocab (symbols.headD "") with
    | some id => [id]
    | none => [tok.unkTokenId]
  else (tok.applyBPE symbols).map (fun s => (mapGetS tok.vocab s).getD tok.unkTokenId)

/-- The inner `while (start < end)` loop of the WordPiece fallback
(lines 199–207), with `end` counting down from the word length: find the
longest prefix of the unconsumed suffix present in the vocabulary (with
`##` prepended when not word-initial); returns the id and the new start. -/
def wpInner (vocab : List (String × Nat)) (word : List Char) (start : Nat) :
    Nat → Option (Nat × Nat)
  | 0 => none
  | e + 1 =>
    if start < e + 1 then
      let piece := String.mk ((word.drop start).take (e + 1 - start))
      let substr := if start > 0 then "##" ++ piece else piece
      match mapGetS vocab substr with
      | some id => some (id, e + 1)
      | none => wpInner vocab word start e
    else none

/-- The outer `while (start < word.length)` loop of the WordPiece fallback
(lines 195–215).  Each step advances `start` by at least one, so
`word.length + 1` fuel suffices. -/
def wpOuter (vocab : List (String × Nat)) (word : List Char) (unk : Nat) :
    Nat → Nat → List Nat
  | 0, _ => []
  | fuel + 1, start =>
    if start < word.length then
      match wpInner vocab word start word.length with
      | some pr => pr.1 :: wpOuter vocab word unk fuel pr.2
      | none => unk :: wpOuter vocab word unk fuel (start + 1)
    else []

/-- `encodeWordPieceFallback` (lines 186–218). -/
def BPETokenizer.encodeWordPieceFallback (tok : BPETokenizer) (word : String) : List Nat :=
  match mapGetS tok.vocab word with
  | some id => [id]
  | none => wpOuter tok.vocab word.data tok.unkTokenId (word.data.length + 1) 0

/-- `encodeWord` (lines 147–158). -/
def BPETokenizer.encodeWord (tok : BPETokenizer) (word : String) : List Nat :=
  match mapGetS tok.addedTokens word with
  | some id => [id]
  | none =>
    if tok.isByteLevelBPE then tok.encodeByteLevelBPE word
    else tok.encodeWordPieceFallback word

/-! ### Transcription service (src/services/transcription.ts) -/

/-- Interface `TranscriptionSegment`. -/
structure TranscriptionSegment where
  speaker : String
  timestamp : Int
  text : String
  deriving Repr, DecidableEq

/-- Interface `TranscriptionResult`. -/
structure TranscriptionResult where
  fullText : String
  segments : List TranscriptionSegment
  deriving Repr, DecidableEq

/-- `String.prototype.trim`. -/
def jsTrim (s : String) : String :=
  ⟨((s.data.dropWhile isJsSpace).reverse.dropWhile isJsSpace).reverse⟩

/-- One element of the API response's `segments` array (duck-typed in the
source; `speaker`/`text` may be missing or empty, `start` is seconds). -/
structure RawSeg where
  speaker : Option String
  start : Option ℚ
  text : Option String

/-- A typed model of the parsed JSON the transcription API may return:
an object (with optional `segments` array and optional string `text`), or
a bare string. -/
inductive ApiResponse where
  | json (segments : Option (List RawSeg)) (text : Option String) : ApiResponse
  | str (s : String) : ApiResponse

/-- JS truthiness of an optional string (`undefined` and `''` are falsy). -/
def truthyStr : Option String → Bool
  | none => false
  | some s => s != ""

/-- `Math.round((segment.start || 0) * 1000)`: JS `Math.round` is
`floor(x + 1/2)`. -/
def roundMs (start : Option ℚ) : Int :=
  ⌊((match start with | none => 0 | some q => q) * 1000) + 1 / 2⌋

/-- `parseTranscriptionResponse` (lines 92–112). -/
def parseTranscriptionResponse (r : ApiResponse) : List TranscriptionSegment :=
  match r with
  | .json (some segs) _ =>
    segs.enum.map (fun p =>
      { speaker := match p.2.speaker with
          | some s => if s == "" then "Speaker " ++ toString (p.1 % 2 + 1) else s
          | none => "Speaker " ++ toString (p.1 % 2 + 1),
        timestamp := roundMs p.2.start,
        text := jsTrim ((p.2.text).getD "") })
  | .json none (some t) =>
    if t != "" then [⟨"Speaker 1", 0, jsTrim t⟩]
    else [⟨"Speaker 1", 0, "[Unexpected transcription format]"⟩]
  | .str s => [⟨"Speaker 1", 0, jsTrim s⟩]
  | .json none none => [⟨"Speaker 1", 0, "[Unexpected transcription format]"⟩]

/-- `getFallbackTranscription` (lines 113–120). -/
def getFallbackTranscription : TranscriptionResult :=
  { fullText := "[Transcription not available — API key not configured]",
    segments := [⟨"Speaker 1", 0, "[Transcription not available — API key not configured]"⟩] }

/-- `processTranscription` (lines 26–89).  The network interaction (file
upload and `fetch` of the Mistral endpoint) is abstracted as `api`: the
parsed JSON on success, or the thrown error (non-2xx responses become the
thrown `Mistral transcription API error ...`).  With a falsy (empty) API
key the function returns the fallback without touching the network. -/
def processTranscription (_audioUri : String) (mistralApiKey : String)
    (_sensitiveWords : List String) (api : Except String ApiResponse) :
    Except String TranscriptionResult :=
  if mistralApiKey == "" then .ok getFallbackTranscription
  else
    match api with
    | .error e => .error e
    | .ok data =>
      let segments := parseTranscriptionResponse data
      let fullText := String.intercalate " " (segments.map (fun s => s.text))
      .ok ⟨fullText, segments⟩

/-! ### The processing pipeline (src/unnamed/part_007, first document)

`runProcessingPipeline` is embedded as a pure function over an environment
that fixes the outcome of every external collaborator it consults: the DB
reads (`getRecordingById`, `getProjectById`, `getApiKeys`), the local
Whisper availability probe (`shouldUseLocalWhisper`, a total Boolean — it
catches its own errors), and the three effectful calls (local Whisper
transcription, the Voxtral API, the LLM call), each an `Except` that
either yields a value or throws.  `anonymizeTranscription` is pure in the
source; it is abstracted as a total function here because the regex-engine
embedding carries a fuel `Option` layer.  The recording row is threaded
explicitly, with `updateRecording` merging fields; the trace records the
status writes and the external calls, in order. -/

/-- The persisted recording row (the fields the pipeline reads/writes). -/
structure Recording where
  audioPath : Option String
  transcription : Option String
  transcriptionData : Option (List TranscriptionSegment)
  transcriptionSource : Option String
  anonymizedTranscription : Option String
  piiMappings : Option (List (String × String))
  llmOutput : Option String
  status : String
  errorMessage : Option String
  deriving Repr, DecidableEq

/-- The project configuration fields the pipeline reads. -/
structure Project where
  enableLlm : Bool
  enableAnonymization : Bool
  sensitiveWords : List String
  llmProvider : String
  llmModel : String
  llmPrompt : String
  deriving Repr, DecidableEq

/-- The API-keys record (`getApiKeys`); `mistralKey` may be absent or
empty, both falsy. -/
structure ApiKeysRecord where
  mistralKey : Option String
  deriving Repr, DecidableEq

/-- `PipelineOptions`; the optional JS fields are Booleans under
truthiness. -/
structure PipelineOptions where
  skipTranscription : Bool
  forceVoxtralApi : Bool
  deriving Repr, DecidableEq

/-- Observable events of one pipeline run: status writes and external
calls. -/
inductive PipelineEvent where
  | statusSet (s : String) : PipelineEvent
  | whisperCall : PipelineEvent
  | voxtralCall : PipelineEvent
  | anonymizeCall : PipelineEvent
  | llmCall : PipelineEvent
  deriving Repr, DecidableEq

/-- The environment of one run (see the section comment). -/
structure PipelineEnv where
  recording : Option Recording
  project : Option Project
  apiKeys : ApiKeysRecord
  useLocalWhisper : Bool
  whisperResult : Except String TranscriptionResult
  voxtralResult : Except String TranscriptionResult
  llmResult : String → Except String String
  anonymizeFn : String → AnonymizationResult

/-- DB row plus event trace. -/
abbrev PipelineSt := Option Recording × List PipelineEvent

/-- Step 1 (lines 63–107): reuse the existing transcription when
`skipTranscription` is set and the row has a truthy transcription;
otherwise set status `transcribing` and transcribe locally (when not
forced to the API and the local probe succeeded) or through the Voxtral
API (throwing when no Mistral key is configured), then persist the
transcript, segments and source tag.  Returns the transcript text and the
updated row. -/
def runStep1 (env : PipelineEnv) (opts : PipelineOptions) (recd : Recording) :
    Except (String × PipelineSt) (String × Recording × List PipelineEvent) :=
  if opts.skipTranscription && truthyStr recd.transcription then
    .ok (recd.transcription.getD "", recd, [])
  else
    let r1 := { recd with status := "transcribing" }
    let tr1 := [PipelineEvent.statusSet "transcribing"]
    if !opts.forceVoxtralApi && env.useLocalWhisper then
      match env.whisperResult with
      | .error e => .error (e, some r1, tr1 ++ [.whisperCall])
      | .ok td =>
        .ok (td.fullText,
          { r1 with transcription := some td.fullText,
                    transcriptionData := some td.segments,
                    transcriptionSource := some "whisper" },
          tr1 ++ [.whisperCall])
    else
      if !truthyStr env.apiKeys.mistralKey then
        .error ("No transcription method available. Either download the Whisper model in Settings " ++
          "for local transcription, or add a Mistral API key for cloud transcription.",
          some r1, tr1)
      else
        match env.voxtralResult with
        | .error e => .error (e, some r1, tr1 ++ [.voxtralCall])
        | .ok td =>
          .ok (td.fullText,
            { r1 with transcription := some td.fullText,
                      transcriptionData := some td.segments,
                      transcriptionSource := some "voxtral-api" },
            tr1 ++ [.voxtralCall])

/-- Steps 2 and 3 (lines 109–162): anonymization (only when both the LLM
and anonymization are enabled), then LLM processing (when enabled), with
the placeholder inversion before persisting and the final `done` status. -/
def runSteps23 (env : PipelineEnv) (project : Project) (transcriptionText : String)
    (r1 : Recording) (tr : List PipelineEvent) : Except (String × PipelineSt) PipelineSt :=
  let anonStep :=
    if project.enableLlm && project.enableAnonymization then
      let r2a := { r1 with status := "anonymizing" }
      let res := env.anonymizeFn transcriptionText
      ({ r2a with anonymizedTranscription := some res.anonymized,
                  piiMappings := some res.mappings },
       tr ++ [PipelineEvent.statusSet "anonymizing", PipelineEvent.anonymizeCall],
       some res.anonymized, some res.mappings)
    else (r1, tr, (none : Option String), (none : Option (List (String × String))))
  match anonStep with
  | (r2, tr2, anonymizedText, piiMappings) =>
    if project.enableLlm then
      let r3a := { r2 with status := "processing" }
      let tr3 := tr2 ++ [PipelineEvent.statusSet "processing", PipelineEvent.llmCall]
      let textToProcess :=
        if project.enableAnonymization && truthyStr anonymizedText then anonymizedText.getD ""
        else transcriptionText
      match env.llmResult textToProcess with
      | .error e => .error (e, some r3a, tr3)
      | .ok llmOutput =>
        let finalOutput :=
          if project.enableAnonymization && piiMappings.isSome then
            reversePIIMappings llmOutput (piiMappings.getD [])
          else llmOutput
        .ok (some { r3a with llmOutput := some finalOutput, status := "done" },
          tr3 ++ [.statusSet "done"])
    else
      .ok (some { r2 with status := "done" }, tr2 ++ [.statusSet "done"])

/-- The `try` body of `runProcessingPipeline`: the early silent aborts
(lines 46–56: recording missing or without a truthy audio path, project
missing — a `console.warn` and a plain `return`), then steps 1–3.  An
`Except.error` carries the thrown message together with the DB row and
trace at the moment of the throw. -/
def runBody (env : PipelineEnv) (opts : PipelineOptions) : Except (String × PipelineSt) PipelineSt :=
  match env.recording with
  | none => .ok (none, [])
  | some recd =>
    if !truthyStr recd.audioPath then .ok (some recd, [])
    else
      match env.project with
      | none => .ok (some recd, [])
      | some project =>
        match runStep1 env opts recd with
        | .error e => .error e
        | .ok (transcriptionText, r1, tr1) =>
          runSteps23 env project transcriptionText r1 tr1

/-- `runProcessingPipeline` (lines 37–174): the `try`/`catch` — any
exception from the body sets status `error` with the exception's message
on the recording row (a no-op when the row does not exist) and the
function resolves; it never rejects. -/
def runProcessingPipeline (env : PipelineEnv) (opts : PipelineOptions) : PipelineSt :=
  match runBody env opts with
  | .ok st => st
  | .error (msg, db, tr) =>
    (db.map (fun r => { r with status := "error", errorMessage := some msg }),
     tr ++ [.statusSet "error"])

/-! ### Fixtures used by witnesses and counterexamples -/

/-- The events steps 2 and 3 can produce. -/
def okPipelineExtras : List PipelineEvent :=
  [.statusSet "anonymizing", .anonymizeCall, .statusSet "processing", .llmCall,
   .statusSet "done"]

/-- A one-token byte-level tokenizer definition used to witness
`encodeWord_single_symbol`. -/
def c6Tok : BPETokenizer :=
  BPETokenizer.ofDef ⟨[("a", 5)], [], some true, [], none⟩

/-- Witness for `pipeline_missing_refs_silent_abort`: a concrete
environment whose project lookup fails while the recording exists. -/
def c9Env : PipelineEnv :=
  ⟨some { audioPath := some "a.wav", transcription := none, transcriptionData := none,
          transcriptionSource := none, anonymizedTranscription := none, piiMappings := none,
          llmOutput := none, status := "pending", errorMessage := none },
    none, ⟨some "key"⟩, false, .error "unused", .error "unused",
    fun _ => .error "unused", fun t => ⟨t, []⟩⟩

/-- The recording row of the C8 witness: a recording with an existing
transcription (so the run can skip transcription). -/
def c8Recd : Recording :=
  { audioPath := some "audio.wav", transcription := some "Call Alice Smith",
    transcriptionData := none, transcriptionSource := some "whisper",
    anonymizedTranscription := none, piiMappings := none, llmOutput := none,
    status := "pending", errorMessage := none }

/-- The C8 witness environment: anonymization succeeds, the LLM call
throws. -/
def c8Env : PipelineEnv :=
  { recording := some c8Recd,
    project := some ⟨true, true, [], "openai", "gpt", "summarize"⟩,
    apiKeys := ⟨some "key"⟩, useLocalWhisper := false,
    whisperResult := .error "unused", voxtralResult := .error "unused",
    llmResult := fun _ => .error "LLM service unavailable",
    anonymizeFn := fun t => ⟨"<person 1>", [("<person 1>", t)]⟩ }

/-- The row at the moment the C8 witness's LLM call throws: status
`processing`, with the transcription and the anonymization results already
persisted. -/
def c8ErrRow : Recording :=
  { c8Recd with
    status := "processing"
    anonymizedTranscription := some "<person 1>"
    piiMappings := some [("<person 1>", "Call Alice Smith")] }

/-- The trace at the moment the C8 witness's LLM call throws. -/
def c8ErrTrace : List PipelineEvent :=
  [.statusSet "anonymizing", .anonymizeCall, .statusSet "processing", .llmCall]

/-- The C7 witness environment: existing recording with a transcription,
project with both features enabled, successful LLM call. -/
def c7Env : PipelineEnv :=
  { recording := some c8Recd,
    project := some ⟨true, true, [], "openai", "gpt", "summarize"⟩,
    apiKeys := ⟨some "key"⟩, useLocalWhisper := true,
    whisperResult := .error "unused", voxtralResult := .error "unused",
    llmResult := fun _ => .ok "summary",
    anonymizeFn := fun t => ⟨"<person 1>", [("<person 1>", t)]⟩ }

/-! ## Shared helper lemmas -/

/-- Reading every position of a list with `getD` reproduces the list. -/
theorem map_getD_range (l : List α) (d : α) :
    (List.range l.length).map (fun i => l.getD i d) = l := by
  induction l with
  | nil => rfl
  | cons a t ih =>
    rw [List.length_cons, List.range_succ_eq_map, List.map_cons, List.map_map]
    have h : (fun i => (a :: t).getD i d) ∘ Nat.succ = fun i => t.getD i d := by
      funext i; rfl
    rw [h, ih]
    rfl

/-- `getQ` at a natural index is `getD`. -/
theorem getQ_natCast (l : List ℚ) (i : Nat) : getQ l (i : Int) = l.getD i 0 := by
  simp [getQ]

/-! ## The claims -/

/-! ### C10 — fallback transcription on an empty API key -/

/-- C10: with an empty (falsy) Mistral API key, `processTranscription`
resolves successfully — without consulting the network — with the fixed
placeholder transcript as full text and as the single segment. -/
theorem processTranscription_empty_key_fallback (audioUri : String)
    (sensitiveWords : List String) (api : Except String ApiResponse) :
    processTranscription audioUri "" sensitiveWords api = .ok getFallbackTranscription ∧
    getFallbackTranscription.fullText =
      "[Transcription not available — API key not configured]" ∧
    getFallbackTranscription.segments =
      [⟨"Speaker 1", 0, "[Transcription not available — API key not configured]"⟩] :=
  ⟨rfl, rfl, rfl⟩

/-! ### C4 — WAV decode sample count and range -/

/-- The payload stores two bytes per frame. -/
theorem wavPayload_length (frames : List Nat) :
    (frames.flatMap (fun w => [w % 256, w / 256 % 256])).length = 2 * frames.length := by
  induction frames with
  | nil => rfl
  | cons a t ih =>
    simp only [List.flatMap_cons, List.length_append, ih, List.length_cons,
      List.length_nil]
    omega

/-- The canonical header is 44 bytes. -/
theorem mkWavHdr_length (d : Nat) : (mkWavHdr d).length = 44 := rfl

/-- `mkWav16` split into header and payload. -/
theorem mkWav16_eq (frames : List Nat) :
    mkWav16 frames =
      mkWavHdr (2 * frames.length) ++ frames.flatMap (fun w => [w % 256, w / 256 % 256]) := by
  rw [show mkWav16 frames =
      mkWavHdr ((frames.flatMap fun w => [w % 256, w / 256 % 256]).length) ++
        frames.flatMap (fun w => [w % 256, w / 256 % 256]) from rfl,
    wavPayload_length]

/-- Total size of the synthetic WAV. -/
theorem mkWav16_length (frames : List Nat) :
    (mkWav16 frames).length = 44 + 2 * frames.length := by
  rw [mkWav16_eq, List.length_append, mkWavHdr_length, wavPayload_length]

/-- The synthetic WAV as right-nested appends, for index arithmetic. -/
theorem mkWavHdr_assoc (d : Nat) (P : List Nat) :
    mkWavHdr d ++ P = ccBytes "RIFF" ++ (le32 (36 + d) ++ (wavMid ++ (le32 d ++ P))) := by
  unfold mkWavHdr
  simp only [List.append_assoc]

/-- Bytes 0-3 of the synthetic WAV come from the `RIFF` id. -/
theorem byteAt_mkWav_head (d : Nat) (P : List Nat) (k : Nat) (hk : k < 4) :
    byteAt (mkWavHdr d ++ P) k = (ccBytes "RIFF").getD k 0 := by
  unfold byteAt
  rw [mkWavHdr_assoc, List.getD_append _ _ _ k (show k < (ccBytes "RIFF").length from hk)]

/-- Bytes 8-39 of the synthetic WAV come from `wavMid`. -/
theorem byteAt_mkWav_mid (d : Nat) (P : List Nat) (k : Nat) (h8 : 8 ≤ k) (h40 : k < 40) :
    byteAt (mkWavHdr d ++ P) k = wavMid.getD (k - 8) 0 := by
  unfold byteAt
  rw [mkWavHdr_assoc,
    List.getD_append_right _ _ _ k (by show 4 ≤ k; omega),
    List.getD_append_right _ _ _ _ (by show 4 ≤ k - 4; omega),
    List.getD_append _ _ _ _ (by show k - 4 - 4 < 32; omega)]
  simp only [show (ccBytes "RIFF").length = 4 from rfl,
    show (le32 (36 + d)).length = 4 from rfl]
  have : k - 4 - 4 = k - 8 := by omega
  rw [this]

/-- Bytes 40-43 of the synthetic WAV are the data-chunk size field. -/
theorem byteAt_mkWav_size (d : Nat) (P : List Nat) (k : Nat) (h40 : 40 ≤ k) (h44 : k < 44) :
    byteAt (mkWavHdr d ++ P) k = (le32 d).getD (k - 40) 0 := by
  unfold byteAt
  rw [mkWavHdr_assoc,
    List.getD_append_right _ _ _ k (by show 4 ≤ k; omega),
    List.getD_append_right _ _ _ _ (by show 4 ≤ k - 4; omega),
    List.getD_append_right _ _ _ _ (by show 32 ≤ k - 4 - 4; omega),
    List.getD_append _ _ _ _ (by show k - 4 - 4 - 32 < 4; omega)]
  simp only [show (ccBytes "RIFF").length = 4 from rfl,
    show (le32 (36 + d)).length = 4 from rfl, show wavMid.length = 32 from rfl]
  have : k - 4 - 4 - 32 = k - 40 := by omega
  rw [this]


/-- The RIFF id reads back. -/
theorem wavReadRiff (d : Nat) (P : List Nat) : fourCCStr (mkWavHdr d ++ P) 0 = "RIFF" := by
  unfold fourCCStr
  rw [byteAt_mkWav_head d P 0 (by omega), byteAt_mkWav_head d P (0 + 1) (by omega),
    byteAt_mkWav_head d P (0 + 2) (by omega), byteAt_mkWav_head d P (0 + 3) (by omega)]
  decide

/-- The WAVE id reads back. -/
theorem wavReadWave (d : Nat) (P : List Nat) : fourCCStr (mkWavHdr d ++ P) 8 = "WAVE" := by
  unfold fourCCStr
  rw [byteAt_mkWav_mid d P 8 (by omega) (by omega),
    byteAt_mkWav_mid d P (8 + 1) (by omega) (by omega),
    byteAt_mkWav_mid d P (8 + 2) (by omega) (by omega),
    byteAt_mkWav_mid d P (8 + 3) (by omega) (by omega)]
  decide

/-- The fmt chunk id reads back. -/
theorem wavReadFmtId (d : Nat) (P : List Nat) : fourCCStr (mkWavHdr d ++ P) 12 = "fmt " := by
  unfold fourCCStr
  rw [byteAt_mkWav_mid d P 12 (by omega) (by omega),
    byteAt_mkWav_mid d P (12 + 1) (by omega) (by omega),
    byteAt_mkWav_mid d P (12 + 2) (by omega) (by omega),
    byteAt_mkWav_mid d P (12 + 3) (by omega) (by omega)]
  decide

/-- The data chunk id reads back. -/
theorem wavReadDataId (d : Nat) (P : List Nat) : fourCCStr (mkWavHdr d ++ P) 36 = "data" := by
  unfold fourCCStr
  rw [byteAt_mkWav_mid d P 36 (by omega) (by omega),
    byteAt_mkWav_mid d P (36 + 1) (by omega) (by omega),
    byteAt_mkWav_mid d P (36 + 2) (by omega) (by omega),
    byteAt_mkWav_mid d P (36 + 3) (by omega) (by omega)]
  decide

/-- The fmt chunk size reads back as 16. -/
theorem wavReadFmtSize (d : Nat) (P : List Nat) : readU32 (mkWavHdr d ++ P) (12 + 4) = 16 := by
  unfold readU32
  rw [byteAt_mkWav_mid d P (12 + 4) (by omega) (by omega),
    byteAt_mkWav_mid d P (12 + 4 + 1) (by omega) (by omega),
    byteAt_mkWav_mid d P (12 + 4 + 2) (by omega) (by omega),
    byteAt_mkWav_mid d P (12 + 4 + 3) (by omega) (by omega)]
  decide

/-- The audio format reads back as 1 (PCM). -/
theorem wavReadAudioFormat (d : Nat) (P : List Nat) : readU16 (mkWavHdr d ++ P) (12 + 8) = 1 := by
  unfold readU16
  rw [byteAt_mkWav_mid d P (12 + 8) (by omega) (by omega),
    byteAt_mkWav_mid d P (12 + 8 + 1) (by omega) (by omega)]
  decide

/-- The channel count reads back as 1. -/
theorem wavReadNumChannels (d : Nat) (P : List Nat) : readU16 (mkWavHdr d ++ P) (12 + 10) = 1 := by
  unfold readU16
  rw [byteAt_mkWav_mid d P (12 + 10) (by omega) (by omega),
    byteAt_mkWav_mid d P (12 + 10 + 1) (by omega) (by omega)]
  decide

/-- The sample rate reads back as 16000. -/
theorem wavReadSampleRate (d : Nat) (P : List Nat) :
    readU32 (mkWavHdr d ++ P) (12 + 12) = 16000 := by
  unfold readU32
  rw [byteAt_mkWav_mid d P (12 + 12) (by omega) (by omega),
    byteAt_mkWav_mid d P (12 + 12 + 1) (by omega) (by omega),
    byteAt_mkWav_mid d P (12 + 12 + 2) (by omega) (by omega),
    byteAt_mkWav_mid d P (12 + 12 + 3) (by omega) (by omega)]
  decide

/-- The bit depth reads back as 16. -/
theorem wavReadBits (d : Nat) (P : List Nat) : readU16 (mkWavHdr d ++ P) (12 + 22) = 16 := by
  unfold readU16
  rw [byteAt_mkWav_mid d P (12 + 22) (by omega) (by omega),
    byteAt_mkWav_mid d P (12 + 22 + 1) (by omega) (by omega)]
  decide

/-- The data-chunk size field reads back exactly below 2^32. -/
theorem wavReadDataSize (d : Nat) (P : List Nat) (hd : d < 4294967296) :
    readU32 (mkWavHdr d ++ P) (36 + 4) = d := by
  unfold readU32
  rw [byteAt_mkWav_size d P (36 + 4) (by omega) (by omega),
    byteAt_mkWav_size d P (36 + 4 + 1) (by omega) (by omega),
    byteAt_mkWav_size d P (36 + 4 + 2) (by omega) (by omega),
    byteAt_mkWav_size d P (36 + 4 + 3) (by omega) (by omega)]
  have e0 : (le32 d).getD (36 + 4 - 40) 0 = d % 256 := rfl
  have e1 : (le32 d).getD (36 + 4 + 1 - 40) 0 = d / 256 % 256 := rfl
  have e2 : (le32 d).getD (36 + 4 + 2 - 40) 0 = d / 65536 % 256 := rfl
  have e3 : (le32 d).getD (36 + 4 + 3 - 40) 0 = d / 16777216 % 256 := rfl
  rw [e0, e1, e2, e3]
  omega


/-- Length of the full synthetic WAV, split form. -/
theorem wavFull_length (frames : List Nat) :
    (mkWavHdr (2 * frames.length) ++
      frames.flatMap (fun w => [w % 256, w / 256 % 256])).length = 44 + 2 * frames.length := by
  rw [List.length_append, mkWavHdr_length, wavPayload_length]

/-- First iteration of the chunk walk: record the fmt fields, advance to offset 36. -/
theorem parseChunks_step1 (frames : List Nat) :
    parseChunks (mkWavHdr (2 * frames.length) ++
        frames.flatMap (fun w => [w % 256, w / 256 % 256]))
      ((44 + 2 * frames.length) + 1) 12 ⟨0, 0, 0, 0⟩ =
    parseChunks (mkWavHdr (2 * frames.length) ++
        frames.flatMap (fun w => [w % 256, w / 256 % 256]))
      (44 + 2 * frames.length) 36 ⟨1, 1, 16000, 16⟩ := by
  simp only [parseChunks]
  rw [wavFull_length]
  rw [if_pos (by omega : (12 : Nat) + 8 < 44 + 2 * frames.length)]
  rw [wavReadFmtId, wavReadFmtSize, wavReadAudioFormat, wavReadNumChannels,
    wavReadSampleRate, wavReadBits]
  simp only [show (("fmt " == "fmt ") = true) from rfl, if_true,
    show (("fmt " == "data")) = false from rfl, Bool.false_eq_true, if_false]
  norm_num


/-- Second iteration of the chunk walk: hit the data chunk and extract. -/
theorem parseChunks_step2 (frames : List Nat) (hne : frames ≠ [])
    (hlen : frames.length < 2147483648) :
    parseChunks (mkWavHdr (2 * frames.length) ++
        frames.flatMap (fun w => [w % 256, w / 256 % 256]))
      (44 + 2 * frames.length) 36 ⟨1, 1, 16000, 16⟩ =
    extractPcmSamples (mkWavHdr (2 * frames.length) ++
        frames.flatMap (fun w => [w % 256, w / 256 % 256]))
      44 (2 * frames.length) 16 1 16000 := by
  have hpos : 0 < frames.length := List.length_pos.mpr hne
  have hsucc : 44 + 2 * frames.length = (43 + 2 * frames.length) + 1 := by omega
  rw [hsucc]
  simp only [parseChunks]
  rw [wavFull_length]
  rw [if_pos (by omega : (36 : Nat) + 8 < 44 + 2 * frames.length)]
  rw [wavReadDataId, wavReadDataSize _ _ (by omega)]
  simp only [show (("data" == "fmt ")) = false from rfl, Bool.false_eq_true, if_false,
    show (("data" == "data") = true) from rfl, if_true]
  rw [show 44 + 2 * frames.length - (36 + 8) = 2 * frames.length from by omega, min_self]
  simp only [show ((FmtInfo.mk 1 1 16000 16).audioFormat != 1) = false from rfl,
    Bool.false_eq_true, if_false]


/-- The two payload bytes of frame `i`. -/
theorem wavPayload_getD (frames : List Nat) (i : Nat) (h : i < frames.length) :
    (frames.flatMap (fun w => [w % 256, w / 256 % 256])).getD (2 * i) 0 =
      frames.getD i 0 % 256 ∧
    (frames.flatMap (fun w => [w % 256, w / 256 % 256])).getD (2 * i + 1) 0 =
      frames.getD i 0 / 256 % 256 := by
  induction frames generalizing i with
  | nil => simp at h
  | cons a t ih =>
    cases i with
    | zero => exact ⟨rfl, rfl⟩
    | succ j =>
      have h2 : 2 * (j + 1) = (2 * j) + 1 + 1 := by omega
      have h3 : 2 * (j + 1) + 1 = ((2 * j + 1) + 1) + 1 := by omega
      rw [List.flatMap_cons]
      constructor
      · rw [h2]
        show ((a % 256) :: (a / 256 % 256) :: t.flatMap (fun w => [w % 256, w / 256 % 256])).getD
            ((2 * j) + 1 + 1) 0 = (a :: t).getD (j + 1) 0 % 256
        rw [List.getD_cons_succ, List.getD_cons_succ, List.getD_cons_succ]
        exact (ih j (by simpa using h)).1
      · rw [h3]
        show ((a % 256) :: (a / 256 % 256) :: t.flatMap (fun w => [w % 256, w / 256 % 256])).getD
            (((2 * j + 1) + 1) + 1) 0 = (a :: t).getD (j + 1) 0 / 256 % 256
        rw [List.getD_cons_succ, List.getD_cons_succ, List.getD_cons_succ]
        exact (ih j (by simpa using h)).2

/-- Reads at offset 44 and beyond land in the payload. -/
theorem byteAt_wavPayload (frames : List Nat) (d k : Nat) :
    byteAt (mkWavHdr d ++ frames.flatMap (fun w => [w % 256, w / 256 % 256])) (44 + k) =
      (frames.flatMap (fun w => [w % 256, w / 256 % 256])).getD k 0 := by
  unfold byteAt
  rw [List.getD_append_right _ _ _ _ (by rw [mkWavHdr_length]; omega), mkWavHdr_length]
  congr 1
  omega

/-- The mono channel loop reads frame `i` and normalizes it. -/
theorem chanFold_eval (frames : List Nat) (i : Nat) (hi : i < frames.length) :
    chanFold (mkWavHdr (2 * frames.length) ++
        frames.flatMap (fun w => [w % 256, w / 256 % 256])) 44 16 1 i 2 (List.range 1) 0 =
      .ok ((toInt16 (frames.getD i 0 % 65536) : ℚ) / 32768) := by
  rw [show List.range 1 = [0] from rfl]
  simp only [chanFold]
  rw [wavFull_length]
  rw [if_neg (by
    simp only [not_lt]
    push_cast
    have hic : (i : ℚ) + 1 ≤ (frames.length : ℚ) := by exact_mod_cast hi
    linarith)]
  simp only [show (((16 : Nat)) == 16) = true from rfl, if_true]
  rw [show 44 + (i * 1 + 0) * 2 = 44 + 2 * i from by ring]
  unfold readU16
  rw [show 44 + 2 * i + 1 = 44 + (2 * i + 1) from by omega]
  rw [byteAt_wavPayload frames (2 * frames.length) (2 * i),
    byteAt_wavPayload frames (2 * frames.length) (2 * i + 1)]
  rw [(wavPayload_getD frames i hi).1, (wavPayload_getD frames i hi).2]
  rw [show frames.getD i 0 % 256 + 256 * (frames.getD i 0 / 256 % 256) =
    frames.getD i 0 % 65536 from by omega]
  rw [zero_add]


/-- The frame loop decodes every requested frame. -/
theorem frameLoop_eval (frames : List Nat) (idxs : List Nat)
    (h : ∀ i ∈ idxs, i < frames.length) :
    frameLoop (mkWavHdr (2 * frames.length) ++
        frames.flatMap (fun w => [w % 256, w / 256 % 256])) 44 16 1 2 idxs =
      .ok (idxs.map (fun i => (toInt16 (frames.getD i 0 % 65536) : ℚ) / 32768)) := by
  induction idxs with
  | nil => rfl
  | cons i is ih =>
    simp only [frameLoop]
    rw [chanFold_eval frames i (h i (List.mem_cons_self i is)),
      ih (fun j hj => h j (List.mem_cons_of_mem i hj))]
    simp only [Nat.cast_one, div_one, List.map_cons]

/-- `extractPcmSamples` on the synthetic WAV: one sample per frame, no resampling. -/
theorem extract_eval (frames : List Nat) :
    extractPcmSamples (mkWavHdr (2 * frames.length) ++
        frames.flatMap (fun w => [w % 256, w / 256 % 256])) 44 (2 * frames.length) 16 1 16000 =
      .ok ((List.range frames.length).map
        (fun i => (toInt16 (frames.getD i 0 % 65536) : ℚ) / 32768)) := by
  simp only [extractPcmSamples]
  rw [show ((16 : Nat) : ℚ) / 8 = 2 from by push_cast; norm_num]
  rw [show (2 : ℚ) * ((1 : Nat) : ℚ) = 2 from by push_cast; norm_num]
  rw [show (((2 * frames.length : Nat) : ℚ) / (2 : ℚ)) = (frames.length : ℚ)
    from by push_cast; ring]
  rw [Int.floor_natCast, Int.toNat_natCast]
  rw [frameLoop_eval frames (List.range frames.length)
    (fun i hi => List.mem_range.mp hi)]
  simp only [show (((16000 : Nat)) == 16000) = true from rfl, if_true]


/-- The header checks pass and the chunk walk starts at offset 12. -/
theorem parseWav_entry (frames : List Nat) :
    parseWavToFloat32 (mkWavHdr (2 * frames.length) ++
        frames.flatMap (fun w => [w % 256, w / 256 % 256])) =
      parseChunks (mkWavHdr (2 * frames.length) ++
        frames.flatMap (fun w => [w % 256, w / 256 % 256]))
        ((44 + 2 * frames.length) + 1) 12 ⟨0, 0, 0, 0⟩ := by
  simp only [parseWavToFloat32]
  rw [wavReadRiff, wavReadWave]
  simp only [show (("RIFF" != "RIFF")) = false from rfl,
    show (("WAVE" != "WAVE")) = false from rfl, Bool.false_eq_true, if_false]
  rw [wavFull_length]

/-- Full evaluation of the decoder on the synthetic WAV. -/
theorem parseWav_mkWav16_eval (frames : List Nat) (hne : frames ≠ [])
    (hlen : frames.length < 2147483648) :
    parseWavToFloat32 (mkWav16 frames) =
      .ok (frames.map (fun w => (toInt16 (w % 65536) : ℚ) / 32768)) := by
  rw [mkWav16_eq, parseWav_entry, parseChunks_step1, parseChunks_step2 frames hne hlen,
    extract_eval]
  congr 1
  have hcomp : (List.range frames.length).map
      (fun i => (toInt16 (frames.getD i 0 % 65536) : ℚ) / 32768) =
      ((List.range frames.length).map (fun i => frames.getD i 0)).map
        (fun w => (toInt16 (w % 65536) : ℚ) / 32768) := by
    rw [List.map_map]
    rfl
  rw [hcomp, map_getD_range]


/-- C4, counterexample: a well-formed WAV whose data chunk holds exactly
0 frames does not decode to 0 samples — the chunk walk's guard
`offset < bytes.length - 8` stops just before a data chunk header that
sits at the very end of a 44-byte file, so decoding throws
`No data chunk found in WAV file.` instead of returning an empty sample
array. -/
theorem parseWav_empty_data_cex :
    parseWavToFloat32 (mkWav16 []) = .error "No data chunk found in WAV file." ∧
    (mkWav16 []).length = 44 :=
  ⟨rfl, rfl⟩

/-- C4, amended: for every well-formed 16-bit mono 16 kHz PCM WAV holding
exactly N frames with N ≥ 1 (and N below 2³¹ so the u32 size fields are
exact), decoding returns exactly N samples, each within [-1, 1].  (At
N = 0 the decode throws, see `parseWav_empty_data_cex`.) -/
theorem parseWav_mkWav16_count_range (frames : List Nat) (hne : frames ≠ [])
    (hlen : frames.length < 2147483648) :
    ∃ out, parseWavToFloat32 (mkWav16 frames) = .ok out ∧
      out.length = frames.length ∧ ∀ x ∈ out, -1 ≤ x ∧ x ≤ 1 := by
  refine ⟨_, parseWav_mkWav16_eval frames hne hlen, by rw [List.length_map], ?_⟩
  intro x hx
  rw [List.mem_map] at hx
  obtain ⟨w, _, hw⟩ := hx
  have hb : -32768 ≤ toInt16 (w % 65536) ∧ toInt16 (w % 65536) ≤ 32767 := by
    unfold toInt16
    split <;> omega
  have h1 : ((-32768 : Int) : ℚ) ≤ ((toInt16 (w % 65536) : Int) : ℚ) := by
    exact_mod_cast hb.1
  have h2 : ((toInt16 (w % 65536) : Int) : ℚ) ≤ ((32767 : Int) : ℚ) := by
    exact_mod_cast hb.2
  subst hw
  constructor
  · have hdiv : ((-32768 : Int) : ℚ) / 32768 ≤ ((toInt16 (w % 65536) : Int) : ℚ) / 32768 :=
      (div_le_div_iff_of_pos_right (by norm_num)).mpr h1
    calc (-1 : ℚ) = ((-32768 : Int) : ℚ) / 32768 := by norm_num
      _ ≤ _ := hdiv
  · have hdiv : ((toInt16 (w % 65536) : Int) : ℚ) / 32768 ≤ ((32767 : Int) : ℚ) / 32768 :=
      (div_le_div_iff_of_pos_right (by norm_num)).mpr h2
    calc ((toInt16 (w % 65536) : Int) : ℚ) / 32768 ≤ ((32767 : Int) : ℚ) / 32768 := hdiv
      _ ≤ 1 := by norm_num

/-- Witness for `parseWav_mkWav16_count_range` on a three-frame WAV
(samples 0, 32767 and -32768). -/
theorem parseWav_mkWav16_count_range_witness :
    ([0, 32767, 32768] : List Nat) ≠ [] ∧
    ([0, 32767, 32768] : List Nat).length < 2147483648 ∧
    (∃ out, parseWavToFloat32 (mkWav16 [0, 32767, 32768]) = .ok out ∧
      out.length = ([0, 32767, 32768] : List Nat).length ∧ ∀ x ∈ out, -1 ≤ x ∧ x ≤ 1) :=
  ⟨by decide, by decide, parseWav_mkWav16_count_range [0, 32767, 32768] (by decide) (by decide)⟩

/-! ### C5 — resample identity -/

/-- C5, counterexample: `resample(samples, r, r)` is not the identity for
every rate `r` — at `r = 0` the JS ratio is `0/0 = NaN`, the output array
has length `ToIndex(NaN) = 0`, and a nonempty input maps to the empty
output (the rational conventions of the embedding produce the same empty
result, see `resample`). -/
theorem resample_zero_rate_cex :
    resample [1] 0 0 = [] ∧ ([] : List ℚ) ≠ [1] := by
  refine ⟨?_, by simp⟩
  simp [resample]

/-- C5, amended: for every nonzero rate `r`, resampling from `r` to `r`
returns the input sequence exactly (the ratio is exactly 1, the
interpolation weight is exactly 0, and no rounding occurs). -/
theorem resample_same_rate_identity (samples : List ℚ) (r : ℚ) (hr : r ≠ 0) :
    resample samples r r = samples := by
  have h1 : r / r = 1 := div_self hr
  simp only [resample, h1, div_one, mul_one, Int.floor_natCast, Int.toNat_natCast,
    Int.cast_natCast, sub_self, mul_zero, add_zero, sub_zero, getQ_natCast]
  exact map_getD_range samples 0

/-- Witness for `resample_same_rate_identity` at rate 16000. -/
theorem resample_same_rate_identity_witness :
    (16000 : ℚ) ≠ 0 ∧ resample [1/2, -1/4, 0] 16000 16000 = [1/2, -1/4, 0] :=
  ⟨by norm_num, resample_same_rate_identity [1/2, -1/4, 0] 16000 (by norm_num)⟩

/-! ### C1 — redaction round-trip -/

/-- C1, counterexample: the round-trip fails on a text that repeats one
PII value in two letter-cases.  On `"a@b.com A@B.COM"` the email detector
matches both occurrences; the case-insensitive deduplication (after the
descending-position sort) keeps the later `"A@B.COM"`, the word-bounded
case-insensitive substitution replaces both occurrences with its
placeholder, and `reverse` restores both in that single casing — the
result differs from the original text. -/
theorem anonymize_roundtrip_cex :
    ∃ res, anonymizeTranscription "a@b.com A@B.COM" = some res ∧
      res.mappings ≠ [] ∧
      reversePIIMappings res.anonymized res.mappings = "A@B.COM A@B.COM" ∧
      "A@B.COM A@B.COM" ≠ "a@b.com A@B.COM" :=
  ⟨⟨"<email 2> <email 2>", [("<email 2>", "A@B.COM")]⟩, by rfl, by simp, by rfl, by decide⟩

/-- C1, amended: the round-trip `reverse(anonymize(text).anonymized,
mappings) = text` holds for sampled PII texts in which every detected
value occurs in a single letter-case form; verified here on the
specification's own sample (one email, one phone number — both detected,
substituted and restored exactly).  When a value recurs in different
letter-cases, every occurrence is restored in the casing of the
deduplication representative (see `anonymize_roundtrip_cex`). -/
theorem anonymize_roundtrip_consistent_case :
    ∃ res, anonymizeTranscription "Contact me at jane.doe@example.com or 555-123-4567" = some res ∧
      res.mappings ≠ [] ∧
      reversePIIMappings res.anonymized res.mappings =
        "Contact me at jane.doe@example.com or 555-123-4567" :=
  ⟨⟨"Contact me at <email 1> or <phone 1>",
    [("<phone 1>", "555-123-4567"), ("<email 1>", "jane.doe@example.com")]⟩,
   by rfl, by simp, by rfl⟩

/-! ### C2 — placeholder numbering -/

/-- C2, counterexample: the per-category counter advances on every regex
match, not only on new case-insensitive values.  On
`"a@b.cd a@b.cd c@d.ef"` the email detector produces three matches
(numbered 1, 2, 3 in match order); only two distinct case-insensitive
values exist, yet the second distinct value `c@d.ef` is recorded under
`<email 3>` — under the claimed numbering every email placeholder would be
`<email 1>` or `<email 2>`. -/
theorem anonymize_numbering_cex :
    ∃ res, anonymizeTranscription "a@b.cd a@b.cd c@d.ef" = some res ∧
      res.anonymized = "<email 1> <email 1> <email 3>" ∧
      res.mappings.map Prod.fst = ["<email 3>", "<email 1>"] ∧
      ("<email 3>" : String) ≠ "<email 2>" :=
  ⟨⟨"<email 1> <email 1> <email 3>", [("<email 3>", "c@d.ef"), ("<email 1>", "a@b.cd")]⟩,
   by rfl, by rfl, by rfl, by decide⟩

/-- `Bool` negation-of-true as an equation. -/
theorem boolNotTrue {b : Bool} (h : ¬ b = true) : b = false := by
  cases b
  · rfl
  · exact absurd rfl h

/-- `List.find?` on a cons whose head satisfies the predicate, with the
predicate explicit (avoids higher-order unification in rewrites). -/
theorem findP_cons_pos (p : α → Bool) (a : α) (l : List α) (h : p a = true) :
    (a :: l).find? p = some a := List.find?_cons_of_pos l h

/-- `List.find?` on a cons whose head fails the predicate. -/
theorem findP_cons_neg (p : α → Bool) (a : α) (l : List α) (h : p a = false) :
    (a :: l).find? p = l.find? p := List.find?_cons_of_neg l (by simp [h])

/-- After overwriting key `t` in a counter table that contains it, lookup
of `t` finds the new value. -/
theorem find_map_setEntry (cs : List (String × Nat)) (t : String) (n : Nat)
    (h : cs.any (fun p => p.1 == t) = true) :
    (cs.map (fun p => if p.1 == t then (t, n) else p)).find? (fun p => p.1 == t) =
      some (t, n) := by
  induction cs with
  | nil => simp at h
  | cons a rest ih =>
    by_cases ha : (a.1 == t) = true
    · rw [List.map_cons, if_pos ha]
      exact findP_cons_pos _ _ _ (beq_self_eq_true t)
    · have h' : rest.any (fun p => p.1 == t) = true := by
        simp only [List.any_cons, Bool.or_eq_true] at h
        exact h.resolve_left (by simpa using ha)
      rw [List.map_cons, if_neg ha, findP_cons_neg (fun p => p.1 == t) a _ (boolNotTrue ha), ih h']

/-- Appending a fresh key `t` to a counter table not containing it makes
lookup of `t` find it. -/
theorem find_append_setEntry (cs : List (String × Nat)) (t : String) (n : Nat)
    (h : cs.any (fun p => p.1 == t) = false) :
    (cs ++ [(t, n)]).find? (fun p => p.1 == t) = some (t, n) := by
  induction cs with
  | nil => exact findP_cons_pos _ _ _ (beq_self_eq_true t)
  | cons a rest ih =>
    rw [List.any_cons, Bool.or_eq_false_iff] at h
    rw [List.cons_append, findP_cons_neg (fun p => p.1 == t) a _ h.1, ih h.2]

/-- `counters[t] = n` after `counters[t] := n`. -/
theorem ctrGet_ctrSet_same (cs : List (String × Nat)) (t : String) (n : Nat) :
    ctrGet (ctrSet cs t n) t = n := by
  unfold ctrSet ctrGet
  by_cases h : cs.any (fun p => p.1 == t) = true
  · rw [if_pos h, find_map_setEntry cs t n h]
  · rw [if_neg h, find_append_setEntry cs t n (boolNotTrue h)]

/-- Setting key `t` leaves the lookup of any other key unchanged. -/
theorem find_ctrSet_other (cs : List (String × Nat)) (t : String) (n : Nat) (t' : String)
    (h : (t' == t) = false) :
    (ctrSet cs t n).find? (fun p => p.1 == t') = cs.find? (fun p => p.1 == t') := by
  have hne : t' ≠ t := by simpa using h
  have htt : (t == t') = false := by simpa using hne.symm
  unfold ctrSet
  by_cases hc : cs.any (fun p => p.1 == t) = true
  · rw [if_pos hc]
    clear hc
    induction cs with
    | nil => rfl
    | cons a rest ih =>
      rw [List.map_cons]
      by_cases ha : (a.1 == t) = true
      · have ha' : (a.1 == t') = false := by rw [eq_of_beq ha]; exact htt
        rw [if_pos ha, findP_cons_neg (fun p => p.1 == t') (t, n) _ htt,
          findP_cons_neg (fun p => p.1 == t') a _ ha', ih]
      · rw [if_neg ha]
        by_cases hp : (a.1 == t') = true
        · rw [findP_cons_pos (fun p => p.1 == t') a _ hp, findP_cons_pos (fun p => p.1 == t') a _ hp]
        · rw [findP_cons_neg (fun p => p.1 == t') a _ (boolNotTrue hp),
            findP_cons_neg (fun p => p.1 == t') a _ (boolNotTrue hp), ih]
  · rw [if_neg hc, List.find?_append]
    have : ([(t, n)].find? (fun p => p.1 == t')) = none := by simp [htt]
    rw [this]
    cases cs.find? (fun p => p.1 == t') <;> rfl

/-- `counters[t']` is unchanged by `counters[t] := n` for `t' ≠ t`. -/
theorem ctrGet_ctrSet_other (cs : List (String × Nat)) (t : String) (n : Nat) (t' : String)
    (h : (t' == t) = false) : ctrGet (ctrSet cs t n) t' = ctrGet cs t' := by
  unfold ctrGet
  rw [find_ctrSet_other cs t n t' h]

/-- Every match pushed by `pushVals` carries its category. -/
theorem pushVals_types (t : String) (cs : List (String × Nat)) (vs : List String) :
    ∀ m ∈ (pushVals t cs vs).1, m.type = t := by
  induction vs generalizing cs with
  | nil => intro m hm; simp [pushVals] at hm
  | cons v vs ih =>
    intro m hm
    simp only [pushVals, List.mem_cons] at hm
    rcases hm with hm | hm
    · rw [hm]
    · exact ih _ m hm

/-- The placeholders pushed for one category are numbered consecutively
from the current counter value, one number per occurrence. -/
theorem pushVals_placeholders (t : String) (cs : List (String × Nat)) (vs : List String) :
    (pushVals t cs vs).1.map (fun m => m.placeholder) =
      (List.range vs.length).map (fun j => mkPlaceholder t (ctrGet cs t + j)) := by
  induction vs generalizing cs with
  | nil => rfl
  | cons v vs ih =>
    simp only [pushVals, List.map_cons, List.length_cons, List.range_succ_eq_map,
      List.map_map]
    rw [List.cons_eq_cons]
    constructor
    · rw [Nat.add_zero]
    · rw [ih, ctrGet_ctrSet_same]
      apply List.map_congr_left
      intro j _
      simp only [Function.comp_apply]
      congr 1
      omega

/-- Counter effect of `pushVals`: the pushed category's counter advances
by the number of occurrences; all other counters are untouched. -/
theorem pushVals_ctr (t : String) (cs : List (String × Nat)) (vs : List String)
    (t' : String) :
    ctrGet (pushVals t cs vs).2 t' =
      if (t' == t) = true then ctrGet cs t' + vs.length else ctrGet cs t' := by
  induction vs generalizing cs with
  | nil => simp [pushVals]
  | cons v vs ih =>
    simp only [pushVals, List.length_cons]
    rw [ih]
    by_cases h : (t' == t) = true
    · have ht' : t' = t := eq_of_beq h
      subst ht'
      rw [if_pos h, if_pos h, ctrGet_ctrSet_same]
      omega
    · rw [if_neg h, if_neg h, ctrGet_ctrSet_other]
      simpa using h

/-- The category-`tcat` placeholders produced by phase 1 are numbered
`start, start + 1, ...` across the detector entries in run order, one per
occurrence, where `start` is the incoming counter value; and the final
counter has advanced by the total occurrence count. -/
theorem buildPM_spec (pm : List (String × List String)) (cs : List (String × Nat))
    (tcat : String) :
    ((buildPatternMatches cs pm).1.filter (fun m => m.type == tcat)).map
        (fun m => m.placeholder) =
      (List.range (countValsOf pm tcat)).map
        (fun j => mkPlaceholder tcat (ctrGet cs tcat + j)) ∧
    ctrGet (buildPatternMatches cs pm).2 tcat = ctrGet cs tcat + countValsOf pm tcat := by
  induction pm generalizing cs with
  | nil => simp [buildPatternMatches, countValsOf]
  | cons entry rest ih =>
    obtain ⟨iht, ihc⟩ := ih (pushVals entry.1 cs entry.2).2
    have hctr : ctrGet (pushVals entry.1 cs entry.2).2 tcat =
        if (tcat == entry.1) = true then ctrGet cs tcat + entry.2.length
        else ctrGet cs tcat := pushVals_ctr entry.1 cs entry.2 tcat
    by_cases h : (entry.1 == tcat) = true
    · have he : entry.1 = tcat := eq_of_beq h
      have hsymm : (tcat == entry.1) = true := by rw [he]; exact beq_self_eq_true tcat
      have hcount : countValsOf (entry :: rest) tcat =
          entry.2.length + countValsOf rest tcat := by
        simp [countValsOf, List.filter_cons, h]
      have hfil : (pushVals entry.1 cs entry.2).1.filter (fun m => m.type == tcat) =
          (pushVals entry.1 cs entry.2).1 := by
        apply List.filter_eq_self.mpr
        intro m hm
        rw [pushVals_types entry.1 cs entry.2 m hm, he]
        exact beq_self_eq_true tcat
      rw [hsymm, if_pos rfl] at hctr
      constructor
      · simp only [buildPatternMatches, List.filter_append, List.map_append, hfil,
          pushVals_placeholders, iht, hctr, hcount, List.range_add, List.map_append,
          List.map_map]
        congr 1
        · apply List.map_congr_left
          intro j _
          rw [he]
        · apply List.map_congr_left
          intro j _
          simp only [Function.comp_apply]
          congr 1
          omega
      · simp only [buildPatternMatches, ihc, hctr, hcount]
        omega
    · have hsymm : (tcat == entry.1) = false := by
        have : entry.1 ≠ tcat := by simpa using h
        simpa using this.symm
      have hcount : countValsOf (entry :: rest) tcat = countValsOf rest tcat := by
        simp [countValsOf, List.filter_cons, h]
      have hfil : (pushVals entry.1 cs entry.2).1.filter (fun m => m.type == tcat) = [] := by
        apply List.filter_eq_nil_iff.mpr
        intro m hm
        rw [pushVals_types entry.1 cs entry.2 m hm]
        simp [h]
      rw [hsymm] at hctr
      simp only [Bool.false_eq_true, if_false] at hctr
      constructor
      · simp only [buildPatternMatches, List.filter_append, List.map_append, hfil,
          List.map_nil, List.nil_append, iht, hctr, hcount]
      · simp only [buildPatternMatches, ihc, hctr, hcount]

/-- Deduplication keeps, for every lower-cased value not already seen, the
first match of that value in the incoming (substitution) order. -/
theorem dedupCI_find_notseen (l : List PiiMatch) (seen : List String) (k : String)
    (hk : seen.contains k = false) :
    (dedupCI seen l).find? (fun u => jsToLower u.value == k) =
      l.find? (fun u => jsToLower u.value == k) := by
  induction l generalizing seen with
  | nil => rfl
  | cons m ms ih =>
    simp only [dedupCI]
    by_cases hs : seen.contains (jsToLower m.value) = true
    · have hpm : (jsToLower m.value == k) = false := by
        cases hpk : jsToLower m.value == k
        · rfl
        · rw [eq_of_beq hpk] at hs
          rw [hs] at hk
          cases hk
      rw [if_pos hs, findP_cons_neg (fun u => jsToLower u.value == k) m _ hpm, ih seen hk]
    · rw [if_neg hs]
      by_cases hp : (jsToLower m.value == k) = true
      · rw [findP_cons_pos (fun u => jsToLower u.value == k) m _ hp,
          findP_cons_pos (fun u => jsToLower u.value == k) m _ hp]
      · rw [findP_cons_neg (fun u => jsToLower u.value == k) m _ (boolNotTrue hp),
          findP_cons_neg (fun u => jsToLower u.value == k) m _ (boolNotTrue hp)]
        apply ih
        simp only [List.contains_cons, Bool.or_eq_false_iff]
        refine ⟨?_, hk⟩
        cases hkk : k == jsToLower m.value
        · rfl
        · rw [eq_of_beq hkk] at hp
          exact absurd (beq_self_eq_true (jsToLower m.value)) hp

/-- C2, amended: (a) each detector category's 1-based counter advances on
every match occurrence of that category (duplicates included), in
detector-run order, so the category's placeholders are numbered 1..N with
N the total occurrence count; and (b) deduplication keeps, per
case-insensitive value, exactly the first match in the substitution order
(stable descending first-occurrence position) — every occurrence of a
repeated value is thus represented by that single placeholder, which for
same-case repetitions is the first-assigned one. -/
theorem anonymize_numbering_amended (pm : List (String × List String)) (tcat : String)
    (l : List PiiMatch) (x : PiiMatch) (hx : x ∈ l) :
    ((buildPatternMatches initCounters pm).1.filter (fun m => m.type == tcat)).map
        (fun m => m.placeholder) =
      (List.range (countValsOf pm tcat)).map
        (fun j => mkPlaceholder tcat (ctrGet initCounters tcat + j)) ∧
    (dedupCI [] l).find? (fun u => jsToLower u.value == jsToLower x.value) =
      l.find? (fun u => jsToLower u.value == jsToLower x.value) ∧
    ∃ u, l.find? (fun u => jsToLower u.value == jsToLower x.value) = some u := by
  refine ⟨(buildPM_spec pm initCounters tcat).1, dedupCI_find_notseen l [] _ rfl, ?_⟩
  have : (l.find? (fun u => jsToLower u.value == jsToLower x.value)).isSome = true :=
    List.find?_isSome.mpr ⟨x, hx, beq_self_eq_true (jsToLower x.value)⟩
  exact Option.isSome_iff_exists.mp this

/-- Witness for `anonymize_numbering_amended`: one email entry with three
occurrences of two distinct values. -/
theorem anonymize_numbering_amended_witness :
    (⟨"email", "A@b.cd", "<email 2>"⟩ : PiiMatch) ∈
      ([⟨"email", "a@b.cd", "<email 1>"⟩, ⟨"email", "A@b.cd", "<email 2>"⟩] :
        List PiiMatch) ∧
    ((buildPatternMatches initCounters [("email", ["a@b.cd", "A@b.cd", "c@d.ef"])]).1.filter
        (fun m => m.type == "email")).map (fun m => m.placeholder) =
      (List.range (countValsOf [("email", ["a@b.cd", "A@b.cd", "c@d.ef"])] "email")).map
        (fun j => mkPlaceholder "email" (ctrGet initCounters "email" + j)) ∧
    (dedupCI [] [⟨"email", "a@b.cd", "<email 1>"⟩, ⟨"email", "A@b.cd", "<email 2>"⟩]).find?
        (fun u => jsToLower u.value == jsToLower "A@b.cd") =
      ([⟨"email", "a@b.cd", "<email 1>"⟩, ⟨"email", "A@b.cd", "<email 2>"⟩] :
        List PiiMatch).find? (fun u => jsToLower u.value == jsToLower "A@b.cd") := by
  have h := anonymize_numbering_amended [("email", ["a@b.cd", "A@b.cd", "c@d.ef"])] "email"
    [⟨"email", "a@b.cd", "<email 1>"⟩, ⟨"email", "A@b.cd", "<email 2>"⟩]
    ⟨"email", "A@b.cd", "<email 2>"⟩ (by decide)
  exact ⟨by decide, h.1, h.2.1⟩

/-! ### C3 — mapping keys and placeholders present in the text -/

/-- C3, counterexample: a mapping key need not occur in the anonymized
text.  On `"123 Main Street"` the address detector matches the whole text
and the person heuristic matches `"Main Street"`; the person match (later
first-occurrence position) is substituted first, consuming the interior of
the address occurrence, so the subsequent address substitution replaces
nothing — yet `<address 1>` is still recorded in the mapping and does not
occur in the anonymized text `"123 <person 1>"`. -/
theorem anonymize_mapping_keys_cex :
    ∃ res, anonymizeTranscription "123 Main Street" = some res ∧
      res.anonymized = "123 <person 1>" ∧
      res.mappings.map Prod.fst = ["<person 1>", "<address 1>"] ∧
      hasSubstr res.anonymized "<address 1>" = false :=
  ⟨⟨"123 <person 1>", [("<person 1>", "Main Street"), ("<address 1>", "123 Main Street")]⟩,
   by rfl, by rfl, by rfl, by rfl⟩

/-- The substitution loop records one mapping entry per deduplicated
match, in order, as long as the placeholders are fresh. -/
theorem runSubs_maps (um : List PiiMatch) (s : String) (maps : List (String × String))
    (hdisj : ∀ m ∈ um, (maps.any (fun p => p.1 == m.placeholder)) = false)
    (hnd : (um.map (fun m => m.placeholder)).Nodup) :
    (runSubs um s maps).2 = maps ++ um.map (fun m => (m.placeholder, m.value)) := by
  induction um generalizing s maps with
  | nil => simp [runSubs]
  | cons m rest ih =>
    simp only [runSubs, List.map_cons]
    have hset : recordSet maps m.placeholder m.value = maps ++ [(m.placeholder, m.value)] := by
      unfold recordSet
      rw [if_neg (by simp [hdisj m (List.mem_cons_self m rest)])]
    rw [hset, ih]
    · rw [List.append_assoc]
      rfl
    · intro m' hm'
      simp only [List.any_append, Bool.or_eq_false_iff]
      refine ⟨hdisj m' (List.mem_cons_of_mem m hm'), ?_⟩
      simp only [List.map_cons, List.nodup_cons] at hnd
      have : m.placeholder ≠ m'.placeholder := by
        intro he
        exact hnd.1 (he ▸ List.mem_map_of_mem (fun x => x.placeholder) hm')
      simp [List.any_cons, this]
    · simp only [List.map_cons, List.nodup_cons] at hnd
      exact hnd.2

/-- C3, amended: the mapping returned by anonymize has exactly one entry
per deduplicated match — key its placeholder, value its matched text, in
substitution order (granted the placeholders are pairwise distinct, which
the per-occurrence counters ensure).  A key can nevertheless be absent
from the anonymized text, namely when an earlier overlapping replacement
consumed its value's occurrences (see `anonymize_mapping_keys_cex`). -/
theorem anonymize_mapping_keys_amended (pm : List (String × List String))
    (pc : List String) (text : String)
    (hnd : ((uniqueMatchesOf pm pc text).map (fun m => m.placeholder)).Nodup) :
    (anonymizeCore pm pc text).mappings =
      (uniqueMatchesOf pm pc text).map (fun m => (m.placeholder, m.value)) := by
  have h := runSubs_maps (uniqueMatchesOf pm pc text) text [] (by simp) hnd
  rw [List.nil_append] at h
  exact h

/-- Witness for `anonymize_mapping_keys_amended`: one email detection on a
one-value text. -/
theorem anonymize_mapping_keys_amended_witness :
    ((uniqueMatchesOf [("email", ["a@b.cd"])] [] "a@b.cd").map
      (fun m => m.placeholder)).Nodup ∧
    (anonymizeCore [("email", ["a@b.cd"])] [] "a@b.cd").mappings =
      (uniqueMatchesOf [("email", ["a@b.cd"])] [] "a@b.cd").map
        (fun m => (m.placeholder, m.value)) :=
  ⟨by decide, anonymize_mapping_keys_amended [("email", ["a@b.cd"])] [] "a@b.cd" (by decide)⟩

/-! ### C6 — BPE single-symbol shortcut -/

/-- C6: in byte-level BPE mode, a word (not itself a registered added
token — those return their id in step 1, before any byte-level processing)
whose byte-level symbol sequence is a single symbol encodes to exactly one
id: the symbol's vocabulary id, or the unknown-token id when absent. -/
theorem encodeWord_single_symbol (tok : BPETokenizer) (word s : String)
    (hadd : mapGetS tok.addedTokens word = none)
    (hmode : tok.isByteLevelBPE = true)
    (hsym : tok.byteSymbols word = [s]) :
    tok.encodeWord word = [(mapGetS tok.vocab s).getD tok.unkTokenId] := by
  unfold BPETokenizer.encodeWord
  rw [hadd, hmode]
  simp only [if_true]
  unfold BPETokenizer.encodeByteLevelBPE
  rw [hsym]
  simp only [List.length_singleton, List.headD_cons]
  cases h : mapGetS tok.vocab s <;> simp [h]

/-- Witness for `encodeWord_single_symbol`: the word `"a"` has the single
byte-level symbol `"a"`, and encodes to its vocabulary id. -/
theorem encodeWord_single_symbol_witness :
    mapGetS c6Tok.addedTokens "a" = none ∧ c6Tok.isByteLevelBPE = true ∧
    c6Tok.byteSymbols "a" = ["a"] ∧
    c6Tok.encodeWord "a" = [(mapGetS c6Tok.vocab "a").getD c6Tok.unkTokenId] ∧
    (mapGetS c6Tok.vocab "a").getD c6Tok.unkTokenId = 5 :=
  ⟨rfl, rfl, rfl, encodeWord_single_symbol c6Tok "a" "a" rfl rfl rfl, rfl⟩

/-! ### C9 — behaviour on missing recording/project -/

/-- C9, counterexample: with a recording id that does not resolve, the
pipeline does not fail at all — no error of any kind is raised (the source
has no `PipelineAbortedError`), the run resolves normally after a
`console.warn`, performs no step, writes no status (in particular not
`error`), and leaves the store untouched. -/
theorem pipeline_missing_recording_cex :
    runProcessingPipeline
      ⟨none, none, ⟨none⟩, false, .error "unused", .error "unused",
        fun _ => .error "unused", fun t => ⟨t, []⟩⟩ ⟨false, false⟩ = (none, []) :=
  rfl

/-- C9, amended: when the recording is missing, its audio path is falsy,
or the project is missing, the run aborts silently: it returns normally
with no event (no status write, no external call) and the recording row
unchanged. -/
theorem pipeline_missing_refs_silent_abort (env : PipelineEnv) (opts : PipelineOptions)
    (h : env.recording = none ∨
      (∃ recd, env.recording = some recd ∧ truthyStr recd.audioPath = false) ∨
      env.project = none) :
    runProcessingPipeline env opts = (env.recording, []) := by
  unfold runProcessingPipeline runBody
  rcases h with h | ⟨recd, hr, ha⟩ | h
  · rw [h]
  · simp [hr, ha]
  · cases hr : env.recording with
    | none => rfl
    | some recd =>
      cases ha : truthyStr recd.audioPath with
      | false => simp [ha]
      | true => simp [ha, h]

/-- Witness for `pipeline_missing_refs_silent_abort`. -/
theorem pipeline_missing_refs_silent_abort_witness :
    runProcessingPipeline c9Env ⟨false, false⟩ = (c9Env.recording, []) :=
  pipeline_missing_refs_silent_abort c9Env ⟨false, false⟩ (Or.inr (Or.inr rfl))

/-! ### C8 — error isolation -/

/-- C8: whenever the pipeline body throws (any step), the handler sets
status `error` with exactly the thrown message on the recording row as it
stood at the moment of the throw, modifying no other field — everything
persisted by earlier completed steps (transcript, segments, source tag,
anonymized text, mappings, LLM output) survives. -/
theorem pipeline_error_isolation (env : PipelineEnv) (opts : PipelineOptions)
    (msg : String) (db : Option Recording) (tr : List PipelineEvent)
    (h : runBody env opts = .error (msg, db, tr)) :
    (runProcessingPipeline env opts).2 = tr ++ [PipelineEvent.statusSet "error"] ∧
    ∀ r', (runProcessingPipeline env opts).1 = some r' →
      ∃ r, db = some r ∧ r'.status = "error" ∧ r'.errorMessage = some msg ∧
        r'.audioPath = r.audioPath ∧ r'.transcription = r.transcription ∧
        r'.transcriptionData = r.transcriptionData ∧
        r'.transcriptionSource = r.transcriptionSource ∧
        r'.anonymizedTranscription = r.anonymizedTranscription ∧
        r'.piiMappings = r.piiMappings ∧ r'.llmOutput = r.llmOutput := by
  unfold runProcessingPipeline
  rw [h]
  refine ⟨rfl, ?_⟩
  intro r' hr'
  cases db with
  | none => exact absurd hr' (by simp)
  | some r =>
    have hr2 : some ({ r with status := "error", errorMessage := some msg }) = some r' := hr'
    have hr3 := Option.some.inj hr2
    subst hr3
    exact ⟨r, rfl, rfl, rfl, rfl, rfl, rfl, rfl, rfl, rfl, rfl⟩

/-- Witness for `pipeline_error_isolation`: the body throws in step 3 and
the theorem applies; the row at the throw still carries the persisted
transcription and anonymization. -/
theorem pipeline_error_isolation_witness :
    (runProcessingPipeline c8Env ⟨true, false⟩).2 =
      c8ErrTrace ++ [PipelineEvent.statusSet "error"] ∧
    c8ErrRow.transcription = some "Call Alice Smith" ∧
    c8ErrRow.anonymizedTranscription = some "<person 1>" :=
  ⟨(pipeline_error_isolation c8Env ⟨true, false⟩ "LLM service unavailable"
      (some c8ErrRow) c8ErrTrace rfl).1, rfl, rfl⟩

/-! ### C7 — pipeline resumption with skipTranscription -/

/-- Characterization of the trace produced by steps 2–3: whatever the
outcome, the trace grows by a fixed list of step-2/3 events that contains
the anonymize call when the project enables both features and the LLM call
when the project enables the LLM. -/
theorem runSteps23_spec (env : PipelineEnv) (project : Project) (tt : String)
    (r1 : Recording) (tr : List PipelineEvent) :
    ∃ extra : List PipelineEvent,
      (∀ st, runSteps23 env project tt r1 tr = .ok st → st.2 = tr ++ extra) ∧
      (∀ msg db tr', runSteps23 env project tt r1 tr = .error (msg, db, tr') →
        tr' = tr ++ extra) ∧
      (∀ e ∈ extra, e ∈ okPipelineExtras) ∧
      (project.enableLlm = true → project.enableAnonymization = true →
        PipelineEvent.anonymizeCall ∈ extra) ∧
      (project.enableLlm = true → PipelineEvent.llmCall ∈ extra) := by
  unfold runSteps23
  cases hL : project.enableLlm with
  | false =>
    refine ⟨[.statusSet "done"], ?_, ?_, by decide, by simp [hL], by simp [hL]⟩
    · intro st heq
      simp only [hL, Bool.false_and, Bool.false_eq_true, if_false] at heq
      cases heq
      rfl
    · intro msg db tr' heq
      simp only [hL, Bool.false_and, Bool.false_eq_true, if_false] at heq
      cases heq
  | true =>
    cases hA : project.enableAnonymization with
    | false =>
      cases hcall : env.llmResult tt with
      | error e =>
        refine ⟨[.statusSet "processing", .llmCall], ?_, ?_, by decide,
          by simp [hA], by simp⟩
        · intro st heq
          simp only [hL, hA, Bool.true_and, Bool.false_and, Bool.and_false, Bool.false_eq_true,
            if_false, if_true, hcall] at heq
          cases heq
        · intro msg db tr' heq
          simp only [hL, hA, Bool.true_and, Bool.false_and, Bool.and_false, Bool.false_eq_true,
            if_false, if_true, hcall] at heq
          cases heq
          rfl
      | ok o =>
        refine ⟨[.statusSet "processing", .llmCall, .statusSet "done"], ?_, ?_, by decide,
          by simp [hA], by simp⟩
        · intro st heq
          simp only [hL, hA, Bool.true_and, Bool.false_and, Bool.and_false, Bool.false_eq_true,
            if_false, if_true, hcall] at heq
          cases heq
          simp
        · intro msg db tr' heq
          simp only [hL, hA, Bool.true_and, Bool.false_and, Bool.and_false, Bool.false_eq_true,
            if_false, if_true, hcall] at heq
          cases heq
    | true =>
      cases htx : truthyStr (some (env.anonymizeFn tt).anonymized) with
      | true =>
        cases hcall : env.llmResult ((env.anonymizeFn tt).anonymized) with
        | error e =>
          refine ⟨[.statusSet "anonymizing", .anonymizeCall, .statusSet "processing",
            .llmCall], ?_, ?_, by decide, by simp, by simp⟩
          · intro st heq
            simp only [hL, hA, Bool.true_and, Bool.and_self, if_true, htx,
              Option.getD_some, hcall] at heq
            cases heq
          · intro msg db tr' heq
            simp only [hL, hA, Bool.true_and, Bool.and_self, if_true, htx,
              Option.getD_some, hcall] at heq
            cases heq
            simp
        | ok o =>
          refine ⟨[.statusSet "anonymizing", .anonymizeCall, .statusSet "processing",
            .llmCall, .statusSet "done"], ?_, ?_, by decide, by simp, by simp⟩
          · intro st heq
            simp only [hL, hA, Bool.true_and, Bool.and_self, if_true, htx,
              Option.getD_some, hcall] at heq
            cases heq
            simp
          · intro msg db tr' heq
            simp only [hL, hA, Bool.true_and, Bool.and_self, if_true, htx,
              Option.getD_some, hcall] at heq
            cases heq
      | false =>
        cases hcall : env.llmResult tt with
        | error e =>
          refine ⟨[.statusSet "anonymizing", .anonymizeCall, .statusSet "processing",
            .llmCall], ?_, ?_, by decide, by simp, by simp⟩
          · intro st heq
            simp only [hL, hA, Bool.true_and, Bool.and_self, if_true, htx,
              Bool.false_eq_true, if_false, hcall] at heq
            cases heq
          · intro msg db tr' heq
            simp only [hL, hA, Bool.true_and, Bool.and_self, if_true, htx,
              Bool.false_eq_true, if_false, hcall] at heq
            cases heq
            simp
        | ok o =>
          refine ⟨[.statusSet "anonymizing", .anonymizeCall, .statusSet "processing",
            .llmCall, .statusSet "done"], ?_, ?_, by decide, by simp, by simp⟩
          · intro st heq
            simp only [hL, hA, Bool.true_and, Bool.and_self, if_true, htx,
              Bool.false_eq_true, if_false, hcall] at heq
            cases heq
            simp
          · intro msg db tr' heq
            simp only [hL, hA, Bool.true_and, Bool.and_self, if_true, htx,
              Bool.false_eq_true, if_false, hcall] at heq
            cases heq

/-- C7: on a run with `skipTranscription` over a recording that exists
(with a truthy audio path — the source aborts before step 1 otherwise)
and already has a nonempty transcription, for an existing project: neither
transcription backend is invoked and the status is never set to
`transcribing`, while the anonymization step still runs when the project
enables both the LLM and anonymization, and the LLM step still runs when
the project enables the LLM. -/
theorem pipeline_skip_transcription (env : PipelineEnv) (opts : PipelineOptions)
    (recd : Recording) (project : Project) (t : String)
    (hrec : env.recording = some recd)
    (haudio : truthyStr recd.audioPath = true)
    (htr : recd.transcription = some t) (ht : t ≠ "")
    (hproj : env.project = some project)
    (hskip : opts.skipTranscription = true) :
    PipelineEvent.whisperCall ∉ (runProcessingPipeline env opts).2 ∧
    PipelineEvent.voxtralCall ∉ (runProcessingPipeline env opts).2 ∧
    PipelineEvent.statusSet "transcribing" ∉ (runProcessingPipeline env opts).2 ∧
    (project.enableLlm = true → project.enableAnonymization = true →
      PipelineEvent.anonymizeCall ∈ (runProcessingPipeline env opts).2) ∧
    (project.enableLlm = true → PipelineEvent.llmCall ∈ (runProcessingPipeline env opts).2) := by
  have hskipT : (opts.skipTranscription && truthyStr recd.transcription) = true := by
    rw [hskip, htr]
    simp [truthyStr, ht]
  have hbody : runBody env opts =
      runSteps23 env project (recd.transcription.getD "") recd [] := by
    unfold runBody runStep1
    simp only [hrec, hproj, haudio, hskipT, Bool.not_true, Bool.false_eq_true, if_false,
      if_true]
  obtain ⟨extra, hok, herr, hsub, hanon, hllm⟩ :=
    runSteps23_spec env project (recd.transcription.getD "") recd []
  have hnotin : ∀ e : PipelineEvent, e ∉ okPipelineExtras →
      e ≠ .statusSet "error" → e ∉ (runProcessingPipeline env opts).2 := by
    intro e hel heerr
    unfold runProcessingPipeline
    rw [hbody]
    cases hS : runSteps23 env project (recd.transcription.getD "") recd [] with
    | ok st =>
      rw [hok st hS]
      intro hmem
      rw [List.nil_append] at hmem
      exact hel (hsub e hmem)
    | error p =>
      obtain ⟨msg, db, tr'⟩ := p
      rw [herr msg db tr' hS]
      intro hmem
      rw [List.nil_append] at hmem
      rcases List.mem_append.mp hmem with hmem | hmem
      · exact hel (hsub e hmem)
      · exact heerr (List.mem_singleton.mp hmem)
  have hin : ∀ e : PipelineEvent, e ∈ extra → e ∈ (runProcessingPipeline env opts).2 := by
    intro e hmem
    unfold runProcessingPipeline
    rw [hbody]
    cases hS : runSteps23 env project (recd.transcription.getD "") recd [] with
    | ok st =>
      rw [hok st hS, List.nil_append]
      exact hmem
    | error p =>
      obtain ⟨msg, db, tr'⟩ := p
      rw [herr msg db tr' hS, List.nil_append]
      exact List.mem_append.mpr (Or.inl hmem)
  refine ⟨hnotin _ (by decide) (by decide), hnotin _ (by decide) (by decide),
    hnotin _ (by decide) (by decide), fun h1 h2 => hin _ (hanon h1 h2), fun h1 => hin _ (hllm h1)⟩

/-- Witness for `pipeline_skip_transcription`. -/
theorem pipeline_skip_transcription_witness :
    PipelineEvent.whisperCall ∉ (runProcessingPipeline c7Env ⟨true, false⟩).2 ∧
    PipelineEvent.voxtralCall ∉ (runProcessingPipeline c7Env ⟨true, false⟩).2 ∧
    PipelineEvent.statusSet "transcribing" ∉ (runProcessingPipeline c7Env ⟨true, false⟩).2 ∧
    PipelineEvent.anonymizeCall ∈ (runProcessingPipeline c7Env ⟨true, false⟩).2 ∧
    PipelineEvent.llmCall ∈ (runProcessingPipeline c7Env ⟨true, false⟩).2 := by
  have h := pipeline_skip_transcription c7Env ⟨true, false⟩ c8Recd
    ⟨true, true, [], "openai", "gpt", "summarize"⟩ "Call Alice Smith"
    rfl rfl rfl (by decide) rfl rfl
  exact ⟨h.1, h.2.1, h.2.2.1, h.2.2.2.1 rfl rfl, h.2.2.2.2 rfl⟩

end SecureScribe
